import Mathlib

/-!
obscommits: the factoid store, its commands and its rendered page

A shallow embedding of `src/factoids.go`: the two maps of the bot state
(`state.Factoids`, `state.Factoidaliases`), the alias resolver
`getFactoidByKey`, the admin command handler `tryHandleAdminFactoid`, the rate
limiter `factoidUsedRecently`, the trigger handler `tryHandleFactoid`, the
records built by `ensureData`, the validity of the render cache
(`ensureFreshness`, `checkTemplateChanged`) and the template function
`linkify`, followed by the properties of the specification that concern them.

Modelling conventions.

* The code runs under the locks `statelock` and `Factoidtpl.Mutex`; the
  embedding is the sequential behaviour of one call.
* The clock, the file `factoid.tpl` and the template engine are inputs of the
  functions that use them: clock readings, whether the template parses, its
  modification time, and the text that executing it writes.
* Pure functions of the standard library that decide a result (`sort.Strings`,
  `strings.Index`, `strings.Replace`, `template.HTMLEscapeString`, the matches
  of the pattern `urlre`) are defined on lists of characters after their
  documented behaviour.
* A Go `map[string]string` is an association list with distinct keys
  (`AList`).  `m[k]` is `lookup`, `m[k] = v` is `insert`, `delete(m, k)` is
  `erase`.  The order of `entries` stands for the unspecified order in which
  `range` visits the map.
* The two `goto` loops (`restart` in `getFactoidByKey`, `restartdelete` in the
  `del` case) take a fuel argument that bounds the number of passes through
  the label; running out of fuel is reported as `Outcome.fuelOut` and never
  as a result.
* Functions that the file calls but that live outside it (`strings.ToLower`
  of the standard library and the regular expression `isalpha`, declared in
  another file of the repository) are parameters, collected in `Env`.
-/

namespace Obscommits

/-- A Go `map[string]string`. -/
abbrev GoMap := AList (fun _ : String => String)

/-- What a call can end in: a normal return, a run-time panic (an index out of
range), or the fuel of a loop running out. -/
inductive Outcome (α : Type) where
  | ret (a : α)
  | panic
  | fuelOut
deriving DecidableEq, Repr

/-- The functions used by `factoids.go` whose definition is not part of it:
`strings.ToLower` and `isalpha.MatchString`. -/
structure Env where
  ToLower : String → String
  isalpha : String → Bool

/-- Modelled from the spec: the key validation `isalpha`, whose declaration is
not in `factoids.go`; the spec calls a valid key an "alphabetic-only token".
Used only to evaluate the code on concrete inputs. -/
def isalphaSpec (s : String) : Bool :=
  !s.data.isEmpty && s.data.all Char.isAlpha

/-- The lower-casing of `strings.ToLower` on ASCII text.  Used only to evaluate
the code on concrete (ASCII) inputs. -/
def asciiToLower (s : String) : String :=
  String.mk (s.data.map Char.toLower)

/-- The environment used for concrete evaluation. -/
def goEnv : Env := ⟨asciiToLower, isalphaSpec⟩

/-- The global variables the factoid code reads and writes:
`state.Factoids`, `state.Factoidaliases` and `factoidtpl.valid`. -/
structure Globals where
  Factoids : GoMap
  Factoidaliases : GoMap
  valid : Bool

/-- The resolver `getFactoidByKey(factoidkey) (factoid, key string, ok bool)`.
Each pass through the label `restart` uses one unit of fuel.  On a miss in both
maps the named results hold the zero values Go assigned to them: `factoid` and
`key` are empty and `ok` is false. -/
def getFactoidByKey (st : Globals) : Nat → String → Outcome (String × String × Bool)
  | 0, _ => .fuelOut
  | fuel + 1, key =>
    match st.Factoids.lookup key with
    | some factoid => .ret (factoid, key, true)
    | none =>
      match st.Factoidaliases.lookup key with
      | some key1 => getFactoidByKey st fuel key1
      | none => .ret ("", "", false)

/-- One call of `srv.notice(nick, args...)`: the recipient and the message
arguments. -/
abbrev Notice := String × List String

/-- The `range` loop of the `del` case: every entry of the alias map whose
value is `factoidkey` is deleted from the map. -/
def delAliasesOf (aliases : GoMap) (factoidkey : String) : GoMap :=
  aliases.entries.foldl
    (fun m e => if e.2 = factoidkey then m.erase e.1 else m) aliases

/-- The `range` loop of the `rename` case: every entry of the alias map whose
value is `factoidkey` is re-pointed to `newfactoidkey`. -/
def renameAliasesOf (aliases : GoMap) (factoidkey newfactoidkey : String) : GoMap :=
  aliases.entries.foldl
    (fun m e => if e.2 = factoidkey then m.insert e.1 newfactoidkey else m) aliases

/-- The body of the `del` case from the label `restartdelete` on; each pass
through the label uses one unit of fuel.  Returns the maps and the notices
sent. -/
def delLoop (nick : String) (st : Globals) :
    Nat → String → List Notice → Outcome (Globals × List Notice)
  | 0, _, _ => .fuelOut
  | fuel + 1, factoidkey, notices =>
    match st.Factoids.lookup factoidkey with
    | some _ =>
      .ret ({ st with
                Factoids := st.Factoids.erase factoidkey
                Factoidaliases := delAliasesOf st.Factoidaliases factoidkey },
            notices ++ [(nick, ["Deleted successfully"])])
    | none =>
      match st.Factoidaliases.lookup factoidkey with
      | some factoidkey1 =>
        delLoop nick st fuel factoidkey1
          (notices ++ [(nick, ["Found an alias, deleting the original factoid"])])
      | none => .ret (st, notices)

/-- What `tryHandleAdminFactoid` leaves behind: the globals, its two results
and the notices it sent. -/
structure AdminResult where
  state : Globals
  abort : Bool
  savestate : Bool
  notices : List Notice

/-- `Factoidtpl.invalidate`. -/
def invalidate (st : Globals) : Globals := { st with valid := false }

/-- The end of `tryHandleAdminFactoid` after the `switch`: the render cache is
invalidated when `savestate` is set; `abort` is true. -/
def adminFinish (st : Globals) (savestate : Bool) (notices : List Notice) : AdminResult :=
  { state := if savestate then invalidate st else st
    abort := true
    savestate := savestate
    notices := notices }

/-- A `return` from inside the `switch`: nothing is invalidated. -/
def adminReturn (st : Globals) (abort : Bool) : AdminResult :=
  { state := st, abort := abort, savestate := false, notices := [] }

/-- The handler `tryHandleAdminFactoid(target, nick, parts) (abort, savestate)`.
`target` is not used by the body and is left out.  `parts[0]` and `parts[1]`
are read unconditionally, so fewer than two parts panic. -/
def tryHandleAdminFactoid (E : Env) (st : Globals) (fuel : Nat) (nick : String)
    (parts : List String) : Outcome AdminResult :=
  match parts with
  | [] => .panic
  | [_] => .panic
  | command :: p1 :: rest =>
    let factoidkey := E.ToLower p1
    let newfactoidkey :=
      match rest with
      | [] => ""
      | p2 :: _ => E.ToLower p2
    let factoid :=
      match rest with
      | [] => ""
      | [p2, p3] => p2 ++ " " ++ p3
      | p2 :: _ => p2
    if command = "add" ∨ command = "mod" then
      if parts.length < 3 then .ret (adminReturn st true)
      else
        .ret (adminFinish { st with Factoids := st.Factoids.insert factoidkey factoid } true
          [(nick, ["Added/Modified successfully"])])
    else if command = "del" then
      match delLoop nick st fuel factoidkey [] with
      | .ret (st1, notices) => .ret (adminFinish st1 true notices)
      | .panic => .panic
      | .fuelOut => .fuelOut
    else if command = "rename" then
      if !E.isalpha newfactoidkey then .ret (adminReturn st true)
      else if (st.Factoids.lookup newfactoidkey).isSome then
        .ret { adminReturn st true with
                 notices := [(nick, ["Renaming would overwrite, please delete first"])] }
      else if (st.Factoidaliases.lookup newfactoidkey).isSome then
        .ret { adminReturn st true with
                 notices := [(nick, ["Renaming would overwrite an alias, please delete first"])] }
      else
        match st.Factoids.lookup factoidkey with
        | some body =>
          .ret (adminFinish
            { st with
                Factoids := (st.Factoids.insert newfactoidkey body).erase factoidkey
                Factoidaliases := renameAliasesOf st.Factoidaliases factoidkey newfactoidkey }
            true [(nick, ["Renamed successfully"])])
        | none => .ret (adminFinish st false [(nick, ["Not present"])])
    else if command = "addalias" ∨ command = "modalias" then
      if parts.length < 3 then .ret (adminReturn st true)
      else
        match getFactoidByKey st fuel newfactoidkey with
        | .ret (_, newfactoidkey1, ok) =>
          if ok then
            .ret (adminFinish
              { st with Factoidaliases := st.Factoidaliases.insert factoidkey newfactoidkey1 }
              true [(nick, ["Added/Modified alias for ", newfactoidkey1, " successfully"])])
          else
            .ret (adminFinish st false
              [(nick, ["No factoid with name ", newfactoidkey1, " found"])])
        | .panic => .panic
        | .fuelOut => .fuelOut
    else if command = "delalias" then
      if (st.Factoidaliases.lookup factoidkey).isSome then
        .ret (adminFinish { st with Factoidaliases := st.Factoidaliases.erase factoidkey } true
          [(nick, ["Deleted alias successfully"])])
      else .ret (adminFinish st false [])
    else .ret (adminReturn st false)

/-- Runs a list of admin commands one after the other from a given state, all
with the same fuel; stops at the first command that does not return. -/
def runAdmin (E : Env) (fuel : Nat) (nick : String) :
    Globals → List (List String) → Outcome Globals
  | st, [] => .ret st
  | st, parts :: more =>
    match tryHandleAdminFactoid E st fuel nick parts with
    | .ret r => runAdmin E fuel nick r.state more
    | .panic => .panic
    | .fuelOut => .fuelOut

/-- The state of a bot that has no factoids yet. -/
def emptyGlobals : Globals := { Factoids := ∅, Factoidaliases := ∅, valid := false }

/-- No key is at once an alias key and a canonical key. -/
def NoOverlap (st : Globals) : Prop :=
  ∀ k, st.Factoidaliases.lookup k ≠ none → st.Factoids.lookup k = none

/-- Every value of the alias map is a key of the factoid map. -/
def AliasesResolve (st : Globals) : Prop :=
  ∀ a k, st.Factoidaliases.lookup a = some k → st.Factoids.lookup k ≠ none


/-- Builds a map from a list of key/value pairs; an earlier pair wins over a
later one with the same key. -/
def mkMap (l : List (String × String)) : GoMap :=
  (l.map fun e => (⟨e.1, e.2⟩ : Sigma fun _ : String => String)).toAList

/-- A store with the two factoids `k` and `j` and three aliases: `a` and `b`
point to `k`, `c` points to `j`. -/
def storePlain : Globals :=
  { Factoids := mkMap [("k", "y"), ("j", "z")]
    Factoidaliases := mkMap [("a", "k"), ("b", "k"), ("c", "j")]
    valid := true }

/-- A store in which the key `a` is both a canonical key and an alias key.  It
is what the commands `add k y`, `addalias a k`, `add a x` leave behind when
run on the empty store. -/
def storeOverlap : Globals :=
  { Factoids := (AList.insert "k" "y" ∅).insert "a" "x"
    Factoidaliases := AList.insert "a" "k" ∅
    valid := false }

/-- A store in which the key `old` is a canonical key and also an alias key,
pointing to itself.  It is what `add old b`, `addalias old old` leave behind
when run on the empty store. -/
def storeSelfAlias : Globals :=
  { Factoids := AList.insert "old" "b" ∅
    Factoidaliases := AList.insert "old" "old" ∅
    valid := false }

/-- An alias chain: `AliasPath st a hops k` says that starting at `a` and
following the alias map through the keys `hops`, one after the other, ends at
`k`, and that no key left behind on the way is a key of the factoid map.  The
chain `a1 -> a2 -> ... -> an -> k` is `AliasPath st a1 [a2, ..., an, k] k`. -/
def AliasPath (st : Globals) : String → List String → String → Prop
  | a, [], k => a = k
  | a, b :: hops, k =>
    st.Factoids.lookup a = none ∧ st.Factoidaliases.lookup a = some b ∧ AliasPath st b hops k

/-- A store with an alias chain of length three: `a1 -> a2 -> a3 -> k`. -/
def storeChain : Globals :=
  { Factoids := mkMap [("k", "y")]
    Factoidaliases := mkMap [("a1", "a2"), ("a2", "a3"), ("a3", "k")]
    valid := true }

/-- The constant `time.Second`.  Instants (`time.Time`) and durations
(`time.Duration`) are integers counting nanoseconds. -/
def Second : Int := 1000000000

/-- The largest `time.Duration` (an `int64`). -/
def maxDuration : Int := 2 ^ 63 - 1

/-- The smallest `time.Duration`. -/
def minDuration : Int := -(2 ^ 63)

/-- The difference `t.Sub(u)` of two instants: `t - u`, saturated to the range
of `time.Duration` as the standard library does. -/
def timeSub (t u : Int) : Int :=
  if t - u > maxDuration then maxDuration
  else if t - u < minDuration then minDuration
  else t - u

/-- The map `usedfactoids`: the instant each key was last stamped with. -/
abbrev UsedMap := AList (fun _ : String => Int)

/-- The rate limiter `factoidUsedRecently(factoidkey)`.  The clock is read
twice, by `time.Since` (first reading, only if the key has a stamp) and by
`time.Now` when the key is stamped (second reading); both readings are
arguments.  Returns the verdict and the new `usedfactoids`. -/
def factoidUsedRecently (used : UsedMap) (sinceNow stampNow : Int) (factoidkey : String) :
    Bool × UsedMap :=
  match used.lookup factoidkey with
  | some lastused =>
    if timeSub sinceNow lastused < 30 * Second then
      (true, used.insert factoidkey stampNow)
    else (false, used.insert factoidkey stampNow)
  | none => (false, used.insert factoidkey stampNow)

/-- The call `strings.Index(s, " ")`: the position of the first space of `s`,
or `-1` if there is none.  Strings are lists of characters here; a space is
one byte and no byte of a longer UTF-8 sequence equals it, so cutting a text at
spaces by characters or by bytes gives the same pieces. -/
def indexSpace : List Char → Int
  | [] => -1
  | c :: cs =>
    if c = ' ' then 0
    else if indexSpace cs < 0 then -1 else indexSpace cs + 1

/-- The slice `s[i:j]`. -/
def slice (s : List Char) (i j : Nat) : List Char := (s.take j).drop i

/-- What `tryHandleFactoid` leaves behind: its result, the map `usedfactoids`
and the calls of `srv.privmsg(target, args...)` it made, each as the target and
the message arguments. -/
structure FactoidResult where
  abort : Bool
  used : UsedMap
  privmsgs : List (String × List String)

/-- The trigger handler `tryHandleFactoid(target, message) (abort bool)`.  The
two clock readings are those of `factoidUsedRecently`. -/
def tryHandleFactoid (E : Env) (st : Globals) (used : UsedMap) (sinceNow stampNow : Int)
    (fuel : Nat) (target message : String) : Outcome FactoidResult :=
  let msg := message.data
  if msg.length = 0 ∨ slice msg 0 1 ≠ ['!'] then .ret ⟨false, used, []⟩
  else
    let pos : Nat := if indexSpace msg < 0 then msg.length else (indexSpace msg).toNat
    let factoidkey := E.ToLower (String.mk (slice msg 1 pos))
    if !E.isalpha factoidkey then .ret ⟨false, used, []⟩
    else
      match getFactoidByKey st fuel factoidkey with
      | .ret (factoid, factoidkey1, ok) =>
        if ok then
          if (factoidUsedRecently used sinceNow stampNow factoidkey1).1 then
            .ret ⟨false, (factoidUsedRecently used sinceNow stampNow factoidkey1).2, []⟩
          else if pos ≠ msg.length then
            let rest := msg.drop (pos + 1)
            let rest1 :=
              if indexSpace rest > 0 then slice rest 0 (indexSpace rest).toNat else rest
            .ret ⟨true, (factoidUsedRecently used sinceNow stampNow factoidkey1).2,
              [(target, [String.mk rest1, ": ", factoid])]⟩
          else
            .ret ⟨true, (factoidUsedRecently used sinceNow stampNow factoidkey1).2,
              [(target, [factoid])]⟩
        else .ret ⟨true, used, []⟩
      | .panic => .panic
      | .fuelOut => .fuelOut

/-- The record `Factoid` handed to the template. -/
structure Factoid where
  Name : String
  Text : String
  Aliases : List String
deriving DecidableEq, Repr

/-- The call `sort.Strings(a)`: `a` in ascending order.  Strings are compared
character by character, which for UTF-8 text is the byte-wise order of Go. -/
def sortStrings (a : List String) : List String :=
  a.insertionSort (fun x y => x.data ≤ y.data)

/-- The first loop of `ensureData`: every alias is appended to the list kept
under the factoid it points to. -/
def collectAliases (aliases : GoMap) : AList (fun _ : String => List String) :=
  aliases.entries.foldl
    (fun m e => m.insert e.2 ((m.lookup e.2).getD [] ++ [e.1])) ∅

/-- The second loop of `ensureData`: every list of the map is sorted (in place,
so the map holds the sorted list afterwards). -/
def sortAliasLists (m : AList (fun _ : String => List String)) :
    AList (fun _ : String => List String) :=
  m.entries.foldl (fun acc e => acc.insert e.1 (sortStrings e.2)) m

/-- The method `Factoidtpl.ensureData`, as the value it stores in `f.data`: one
record per factoid, with the sorted aliases found for its name (none for a name
that is missing from the map of aliases), sorted by `Factoids.Less`, that is by
name.  The names are distinct, so every sorting algorithm gives the list that
insertion sort gives. -/
def ensureData (st : Globals) : List Factoid :=
  let aliases := sortAliasLists (collectAliases st.Factoidaliases)
  let factoids := st.Factoids.entries.map fun e =>
    ({ Name := e.1, Text := e.2, Aliases := (aliases.lookup e.1).getD [] } : Factoid)
  factoids.insertionSort (fun f g => f.Name.data ≤ g.Name.data)

/-- The fields of `Factoidtpl` besides `valid`: the recorded modification time
of the template, the records and the rendered page (`tplout[0:tpllen]`). -/
structure TplCache where
  tplmtime : Int
  data : List Factoid
  tplout : String

/-- The method `Factoidtpl.ensureFreshness`.  Its inputs from outside are
whether `factoid.tpl` parses and what executing the template on the records
writes (`render`).  Modelled from the spec: `F`, which is called when the
template does not parse and is not defined in `factoids.go`, is fatal; the
result is then `none`. -/
def ensureFreshness (render : List Factoid → String) (parses : Bool) (st : Globals)
    (c : TplCache) : Option (Globals × TplCache) :=
  if st.valid then some (st, c)
  else if !parses then none
  else
    some ({ st with valid := true },
      { c with data := ensureData st, tplout := render (ensureData st) })

/-- The method `Factoidtpl.checkTemplateChanged`; `stat` is the modification
time `os.Stat("factoid.tpl")` reports, or `none` if it fails. -/
def checkTemplateChanged (stat : Option Int) (st : Globals) (c : TplCache) : Globals :=
  if !st.valid then st
  else
    match stat with
    | none => st
    | some mtime => if mtime ≠ c.tplmtime then { st with valid := false } else st

/-- The value of `factoidtpl` when the process starts, `Factoidtpl{}`, for the
fields of `TplCache`: the zero time, no records, no output. -/
def tplZero : TplCache := { tplmtime := 0, data := [], tplout := "" }

/-- The store of the example of the specification: the factoids `foo` and
`baz` and the alias `b` of `foo`. -/
def storeExample : Globals :=
  { Factoids := mkMap [("foo", "bar"), ("baz", "qux")]
    Factoidaliases := mkMap [("b", "foo")]
    valid := false }

/-- The store `storeExample` with the entries of the factoid map in the other
order. -/
def storeExampleSwapped : Globals :=
  { Factoids := mkMap [("baz", "qux"), ("foo", "bar")]
    Factoidaliases := mkMap [("b", "foo")]
    valid := false }

/-- The double quote character. -/
def dquote : Char := Char.ofNat 34

/-- The function `template.HTMLEscapeString` of the standard library: the
characters `&`, apostrophe, `<`, `>` and double quote are replaced by
`&amp;`, `&#39;`, `&lt;`, `&gt;` and `&#34;`, and the NUL character by
U+FFFD. -/
def htmlEscape : List Char → List Char
  | [] => []
  | c :: cs =>
    (if c = '&' then "&amp;".data
     else if c = Char.ofNat 39 then "&#39;".data
     else if c = '<' then "&lt;".data
     else if c = '>' then "&gt;".data
     else if c = dquote then "&#34;".data
     else if c = Char.ofNat 0 then [Char.ofNat 65533]
     else [c]) ++ htmlEscape cs

/-- Whether `p` is the beginning of `s`. -/
def startsWith : List Char → List Char → Bool
  | [], _ => true
  | _ :: _, [] => false
  | a :: p, b :: s => a = b && startsWith p s

/-- Whether a run of non-space characters matches `[^ ]+\.[^ ]+`: it has a dot
that is neither its first nor its last character. -/
def hasInnerDot : List Char → Bool
  | [] => false
  | _ :: t => t.dropLast.contains '.'

/-- The length of the match of `urlre`, the pattern `https?://[^ ]+\.[^ ]+`,
at the beginning of `s`, if there is one.  After the scheme the match is the
whole run of characters up to the next space (both `[^ ]+` are greedy), and
there is a match exactly if that run has an inner dot. -/
def urlMatchAt (s : List Char) : Option Nat :=
  if startsWith "https://".data s then
    if hasInnerDot ((s.drop 8).takeWhile (fun c => c ≠ ' ')) then
      some (8 + ((s.drop 8).takeWhile (fun c => c ≠ ' ')).length)
    else none
  else if startsWith "http://".data s then
    if hasInnerDot ((s.drop 7).takeWhile (fun c => c ≠ ' ')) then
      some (7 + ((s.drop 7).takeWhile (fun c => c ≠ ' ')).length)
    else none
  else none

/-- The scan of `urlre.FindAllString(s, -1)`: the leftmost match, then the
leftmost match after it, and so on.  `skip` counts the characters of the
current match that are still to be passed over. -/
def findAllFrom : Nat → List Char → List (List Char)
  | _, [] => []
  | skip + 1, _ :: cs => findAllFrom skip cs
  | 0, c :: cs =>
    match urlMatchAt (c :: cs) with
    | some n => (c :: cs).take n :: findAllFrom (n - 1) cs
    | none => findAllFrom 0 cs

/-- The call `urlre.FindAllString(s, -1)`. -/
def urlreFindAll (s : List Char) : List (List Char) := findAllFrom 0 s

/-- The scan of `strings.Replace(s, old, new, -1)` for a non-empty `old`: the
occurrences of `old` are replaced from left to right, without overlap. -/
def replaceFrom (old new : List Char) : Nat → List Char → List Char
  | _, [] => []
  | skip + 1, _ :: cs => replaceFrom old new skip cs
  | 0, c :: cs =>
    if startsWith old (c :: cs) then new ++ replaceFrom old new (old.length - 1) cs
    else c :: replaceFrom old new 0 cs

/-- The call `strings.Replace(s, old, new, -1)`; an empty `old` matches before
every character and at the end. -/
def stringsReplace (s old new : List Char) : List Char :=
  if old = [] then new ++ s.flatMap (fun c => c :: new)
  else replaceFrom old new 0 s

/-- The call `b.ReadString('\x00')` on a buffer holding `l`: the text up to and
including the first NUL character, or all of it if there is none. -/
def readStringNul : List Char → List Char
  | [] => []
  | c :: cs => if c = Char.ofNat 0 then [c] else c :: readStringNul cs

/-- What the loop of `linkify` writes into the buffer `b` for one match. -/
def anchor (url : List Char) : List Char :=
  "<a target=".data ++ [dquote] ++ "_blank".data ++ [dquote] ++ " href=".data ++ [dquote]
    ++ url ++ [dquote] ++ ">".data ++ url ++ "</a>".data

/-- The template function `linkify`: the escaped text in which, for each match
of `urlre` in turn, all occurrences of the matched text are replaced by its
anchor. -/
def linkify (s : String) : String :=
  let s0 := htmlEscape s.data
  String.mk ((urlreFindAll s0).foldl
    (fun acc url => stringsReplace acc url (readStringNul (anchor url))) s0)

/-! ## Map lemmas -/

theorem lookup_erase_eq (m : GoMap) (k a : String) :
    (m.erase k).lookup a = if a = k then none else m.lookup a := by
  by_cases h : a = k
  · subst h; simp
  · simp [h, AList.lookup_erase_ne h]

theorem lookup_insert_eq (m : GoMap) (k v a : String) :
    (m.insert k v).lookup a = if a = k then some v else m.lookup a := by
  by_cases h : a = k
  · subst h; simp
  · simp [h, AList.lookup_insert_ne h]

theorem foldl_erase_lookup (fk a : String) :
    ∀ (l : List (Sigma fun _ : String => String)) (acc : GoMap),
      (l.foldl (fun m e => if e.2 = fk then m.erase e.1 else m) acc).lookup a =
        if (∃ e ∈ l, e.1 = a ∧ e.2 = fk) then none else acc.lookup a := by
  intro l
  induction l with
  | nil => intro acc; simp
  | cons e l ih =>
    intro acc
    rw [List.foldl_cons, ih]
    by_cases h : ∃ e1 ∈ l, e1.1 = a ∧ e1.2 = fk
    · have h2 : ∃ e1 ∈ e :: l, e1.1 = a ∧ e1.2 = fk := by
        obtain ⟨e1, he1, hh⟩ := h
        exact ⟨e1, List.mem_cons_of_mem _ he1, hh⟩
      rw [if_pos h, if_pos h2]
    · rw [if_neg h]
      by_cases h3 : e.2 = fk
      · rw [if_pos h3, lookup_erase_eq]
        by_cases h4 : a = e.1
        · have h2 : ∃ e1 ∈ e :: l, e1.1 = a ∧ e1.2 = fk :=
            ⟨e, List.mem_cons_self _ _, h4.symm, h3⟩
          rw [if_pos h4, if_pos h2]
        · have h2 : ¬ ∃ e1 ∈ e :: l, e1.1 = a ∧ e1.2 = fk := by
            rintro ⟨e1, he1, hh1, hh2⟩
            rcases List.mem_cons.1 he1 with rfl | hm
            · exact h4 hh1.symm
            · exact h ⟨e1, hm, hh1, hh2⟩
          rw [if_neg h4, if_neg h2]
      · rw [if_neg h3]
        have h2 : ¬ ∃ e1 ∈ e :: l, e1.1 = a ∧ e1.2 = fk := by
          rintro ⟨e1, he1, hh1, hh2⟩
          rcases List.mem_cons.1 he1 with rfl | hm
          · exact h3 hh2
          · exact h ⟨e1, hm, hh1, hh2⟩
        rw [if_neg h2]

theorem foldl_insert_lookup (fk nk a : String) :
    ∀ (l : List (Sigma fun _ : String => String)) (acc : GoMap),
      (l.foldl (fun m e => if e.2 = fk then m.insert e.1 nk else m) acc).lookup a =
        if (∃ e ∈ l, e.1 = a ∧ e.2 = fk) then some nk else acc.lookup a := by
  intro l
  induction l with
  | nil => intro acc; simp
  | cons e l ih =>
    intro acc
    rw [List.foldl_cons, ih]
    by_cases h : ∃ e1 ∈ l, e1.1 = a ∧ e1.2 = fk
    · have h2 : ∃ e1 ∈ e :: l, e1.1 = a ∧ e1.2 = fk := by
        obtain ⟨e1, he1, hh⟩ := h
        exact ⟨e1, List.mem_cons_of_mem _ he1, hh⟩
      rw [if_pos h, if_pos h2]
    · rw [if_neg h]
      by_cases h3 : e.2 = fk
      · rw [if_pos h3, lookup_insert_eq]
        by_cases h4 : a = e.1
        · have h2 : ∃ e1 ∈ e :: l, e1.1 = a ∧ e1.2 = fk :=
            ⟨e, List.mem_cons_self _ _, h4.symm, h3⟩
          rw [if_pos h4, if_pos h2]
        · have h2 : ¬ ∃ e1 ∈ e :: l, e1.1 = a ∧ e1.2 = fk := by
            rintro ⟨e1, he1, hh1, hh2⟩
            rcases List.mem_cons.1 he1 with rfl | hm
            · exact h4 hh1.symm
            · exact h ⟨e1, hm, hh1, hh2⟩
          rw [if_neg h4, if_neg h2]
      · rw [if_neg h3]
        have h2 : ¬ ∃ e1 ∈ e :: l, e1.1 = a ∧ e1.2 = fk := by
          rintro ⟨e1, he1, hh1, hh2⟩
          rcases List.mem_cons.1 he1 with rfl | hm
          · exact h3 hh2
          · exact h ⟨e1, hm, hh1, hh2⟩
        rw [if_neg h2]

theorem exists_entry_iff (m : GoMap) (a fk : String) :
    (∃ e ∈ m.entries, e.1 = a ∧ e.2 = fk) ↔ m.lookup a = some fk := by
  constructor
  · rintro ⟨⟨k, v⟩, he, h1, h2⟩
    simp only at h1 h2
    subst h1; subst h2
    exact AList.mem_lookup_iff.2 he
  · intro h
    exact ⟨⟨a, fk⟩, AList.mem_lookup_iff.1 h, rfl, rfl⟩

/-- Lookup in the alias map after the `range` loop of `del`. -/
theorem lookup_delAliasesOf (m : GoMap) (fk a : String) :
    (delAliasesOf m fk).lookup a = if m.lookup a = some fk then none else m.lookup a := by
  unfold delAliasesOf
  rw [foldl_erase_lookup]
  simp only [exists_entry_iff]

/-- Lookup in the alias map after the `range` loop of `rename`. -/
theorem lookup_renameAliasesOf (m : GoMap) (fk nk a : String) :
    (renameAliasesOf m fk nk).lookup a =
      if m.lookup a = some fk then some nk else m.lookup a := by
  unfold renameAliasesOf
  rw [foldl_insert_lookup]
  simp only [exists_entry_iff]


/-! ## The resolver -/

/-- A successful resolution ends at a key of the factoid map and returns the
body stored under it. -/
theorem getFactoidByKey_ok (st : Globals) :
    ∀ (fuel : Nat) (key factoid k : String),
      getFactoidByKey st fuel key = .ret (factoid, k, true) →
        st.Factoids.lookup k = some factoid := by
  intro fuel
  induction fuel with
  | zero => intro key factoid k h; simp [getFactoidByKey] at h
  | succ n ih =>
    intro key factoid k h
    unfold getFactoidByKey at h
    cases hf : st.Factoids.lookup key with
    | some body =>
      rw [hf] at h
      simp only [Outcome.ret.injEq, Prod.mk.injEq, and_true] at h
      obtain ⟨h1, h2⟩ := h
      subst h1; subst h2
      exact hf
    | none =>
      rw [hf] at h
      cases ha : st.Factoidaliases.lookup key with
      | some key1 =>
        rw [ha] at h
        exact ih key1 factoid k h
      | none =>
        rw [ha] at h
        simp at h

/-- The resolver never panics. -/
theorem getFactoidByKey_ne_panic (st : Globals) :
    ∀ (fuel : Nat) (key : String), getFactoidByKey st fuel key ≠ .panic := by
  intro fuel
  induction fuel with
  | zero => intro key; simp [getFactoidByKey]
  | succ n ih =>
    intro key
    unfold getFactoidByKey
    cases hf : st.Factoids.lookup key with
    | some body => simp
    | none =>
      cases ha : st.Factoidaliases.lookup key with
      | some key1 => exact ih key1
      | none => simp

/-- C1 (as amended): an alias key `a` that is not itself a key of the factoid
map and whose alias entry points to a key `k` of the factoid map resolves to
`(body of k, k, true)`; two passes through `restart` are enough. -/
theorem getFactoidByKey_alias (st : Globals) (fuel : Nat) (a k body : String)
    (ha : st.Factoids.lookup a = none)
    (hak : st.Factoidaliases.lookup a = some k)
    (hk : st.Factoids.lookup k = some body) :
    getFactoidByKey st (fuel + 2) a = .ret (body, k, true) := by
  simp [getFactoidByKey, ha, hak, hk]

/-- The alias `a` of `storePlain` resolves to the factoid `k`. -/
theorem getFactoidByKey_alias_witness :
    storePlain.Factoids.lookup "a" = none ∧
    storePlain.Factoidaliases.lookup "a" = some "k" ∧
    storePlain.Factoids.lookup "k" = some "y" ∧
    getFactoidByKey storePlain 2 "a" = .ret ("y", "k", true) :=
  ⟨by decide, by decide, by decide,
    getFactoidByKey_alias storePlain 0 "a" "k" "y" (by decide) (by decide) (by decide)⟩

/-- C1 fails as stated: in `storeOverlap`, reached from the empty store by
`add k y`, `addalias a k`, `add a x`, the alias `a` points to the canonical key
`k`, yet `a` resolves to its own body `x` under the key `a`, for any fuel. -/
theorem getFactoidByKey_alias_counterexample :
    runAdmin goEnv 1 "nick" emptyGlobals
        [["add", "k", "y"], ["addalias", "a", "k"], ["add", "a", "x"]] = .ret storeOverlap ∧
    storeOverlap.Factoidaliases.lookup "a" = some "k" ∧
    storeOverlap.Factoids.lookup "k" = some "y" ∧
    (∀ fuel, getFactoidByKey storeOverlap (fuel + 1) "a" = .ret ("x", "a", true)) ∧
    (∀ fuel, getFactoidByKey storeOverlap fuel "a" ≠ .ret ("y", "k", true)) := by
  refine ⟨rfl, by decide, by decide, ?_, ?_⟩
  · intro fuel
    have h : storeOverlap.Factoids.lookup "a" = some "x" := by decide
    simp [getFactoidByKey, h]
  · intro fuel
    cases fuel with
    | zero => simp [getFactoidByKey]
    | succ n =>
      have h : storeOverlap.Factoids.lookup "a" = some "x" := by decide
      simp [getFactoidByKey, h]


/-! ## The admin commands `del` and `rename` -/

/-- What `del` leaves behind when its key is a canonical key: one pass through
`restartdelete`. -/
theorem del_canonical_eq (E : Env) (st : Globals) (fuel : Nat) (nick K : String)
    (rest : List String) (body : String)
    (hk : st.Factoids.lookup (E.ToLower K) = some body) :
    tryHandleAdminFactoid E st (fuel + 1) nick ("del" :: K :: rest) =
      .ret (adminFinish
        { st with
            Factoids := st.Factoids.erase (E.ToLower K)
            Factoidaliases := delAliasesOf st.Factoidaliases (E.ToLower K) }
        true [(nick, ["Deleted successfully"])]) := by
  simp [tryHandleAdminFactoid, delLoop, hk]

/-- C2 (as amended): after `del k` on a canonical key `k`, `k` is gone from the
factoid map, every alias entry whose value was `k` is gone from the alias map,
and every such former alias key that is not a canonical key other than `k`
resolves to not-found. -/
theorem del_canonical_cascade (E : Env) (st : Globals) (fuel : Nat) (nick K : String)
    (rest : List String) (body : String)
    (hk : st.Factoids.lookup (E.ToLower K) = some body) :
    ∃ r, tryHandleAdminFactoid E st (fuel + 1) nick ("del" :: K :: rest) = .ret r ∧
      r.savestate = true ∧
      r.state.Factoids.lookup (E.ToLower K) = none ∧
      ∀ a, st.Factoidaliases.lookup a = some (E.ToLower K) →
        r.state.Factoidaliases.lookup a = none ∧
        (st.Factoids.lookup a = none ∨ a = E.ToLower K →
          ∀ fuel1, getFactoidByKey r.state (fuel1 + 1) a = .ret ("", "", false)) := by
  refine ⟨_, del_canonical_eq E st fuel nick K rest body hk, rfl, ?_, ?_⟩
  · simp [adminFinish, invalidate]
  · intro a ha
    have h1 : (delAliasesOf st.Factoidaliases (E.ToLower K)).lookup a = none := by
      rw [lookup_delAliasesOf, if_pos ha]
    have h2 : st.Factoids.lookup a = none ∨ a = E.ToLower K →
        (st.Factoids.erase (E.ToLower K)).lookup a = none := by
      intro h
      rw [lookup_erase_eq]
      rcases h with h | h
      · simp [h]
      · simp [h]
    refine ⟨by simpa [adminFinish, invalidate] using h1, ?_⟩
    intro h fuel1
    have h3 := h2 h
    simp [getFactoidByKey, adminFinish, invalidate, h1, h3]

/-- Deleting the canonical key `k` of `storePlain`. -/
theorem del_canonical_cascade_witness :
    storePlain.Factoids.lookup (goEnv.ToLower "K") = some "y" ∧
    ∃ r, tryHandleAdminFactoid goEnv storePlain 1 "nick" ["del", "K"] = .ret r ∧
      r.savestate = true ∧
      r.state.Factoids.lookup (goEnv.ToLower "K") = none ∧
      ∀ a, storePlain.Factoidaliases.lookup a = some (goEnv.ToLower "K") →
        r.state.Factoidaliases.lookup a = none ∧
        (storePlain.Factoids.lookup a = none ∨ a = goEnv.ToLower "K" →
          ∀ fuel1, getFactoidByKey r.state (fuel1 + 1) a = .ret ("", "", false)) :=
  ⟨by decide, del_canonical_cascade goEnv storePlain 0 "nick" "K" [] "y" (by decide)⟩

/-- C2 fails as stated: in `storeOverlap` the alias `a` points to the canonical
key `k` and is a canonical key itself; after `del k` the alias entry is gone but
`a` still resolves, to its own body. -/
theorem del_canonical_cascade_counterexample :
    storeOverlap.Factoids.lookup "k" = some "y" ∧
    storeOverlap.Factoidaliases.lookup "a" = some "k" ∧
    ∃ r, tryHandleAdminFactoid goEnv storeOverlap 1 "nick" ["del", "k"] = .ret r ∧
      r.state.Factoidaliases.lookup "a" = none ∧
      ∀ fuel, getFactoidByKey r.state (fuel + 1) "a" = .ret ("x", "a", true) := by
  refine ⟨by decide, by decide, _,
    del_canonical_eq goEnv storeOverlap 0 "nick" "k" [] "y" (by decide), by decide, ?_⟩
  intro fuel
  have h : (adminFinish
        { storeOverlap with
            Factoids := storeOverlap.Factoids.erase (goEnv.ToLower "k")
            Factoidaliases := delAliasesOf storeOverlap.Factoidaliases (goEnv.ToLower "k") }
        true [("nick", ["Deleted successfully"])]).state.Factoids.lookup "a" = some "x" := by
    decide
  simp [getFactoidByKey, h]


/-- What a successful `rename` leaves behind. -/
theorem rename_ok_eq (E : Env) (st : Globals) (fuel : Nat) (nick O N : String)
    (rest : List String) (body : String)
    (hold : st.Factoids.lookup (E.ToLower O) = some body)
    (hvalid : E.isalpha (E.ToLower N) = true)
    (hnf : st.Factoids.lookup (E.ToLower N) = none)
    (hna : st.Factoidaliases.lookup (E.ToLower N) = none) :
    tryHandleAdminFactoid E st fuel nick ("rename" :: O :: N :: rest) =
      .ret (adminFinish
        { st with
            Factoids := (st.Factoids.insert (E.ToLower N) body).erase (E.ToLower O)
            Factoidaliases :=
              renameAliasesOf st.Factoidaliases (E.ToLower O) (E.ToLower N) }
        true [(nick, ["Renamed successfully"])]) := by
  simp [tryHandleAdminFactoid, hold, hvalid, hnf, hna]

/-- C3 (as amended): after a successful `rename old new`, `new` resolves to the
body `old` had; `old` resolves to not-found provided it was not an alias key;
and every alias key whose value was `old` and that is not a canonical key other
than `old` resolves to `(that body, new, true)`. -/
theorem rename_ok_resolves (E : Env) (st : Globals) (fuel : Nat) (nick O N : String)
    (rest : List String) (body : String)
    (hold : st.Factoids.lookup (E.ToLower O) = some body)
    (hvalid : E.isalpha (E.ToLower N) = true)
    (hnf : st.Factoids.lookup (E.ToLower N) = none)
    (hna : st.Factoidaliases.lookup (E.ToLower N) = none) :
    ∃ r, tryHandleAdminFactoid E st fuel nick ("rename" :: O :: N :: rest) = .ret r ∧
      r.savestate = true ∧
      (st.Factoidaliases.lookup (E.ToLower O) = none →
        ∀ fuel1, getFactoidByKey r.state (fuel1 + 1) (E.ToLower O) = .ret ("", "", false)) ∧
      (∀ fuel1, getFactoidByKey r.state (fuel1 + 1) (E.ToLower N) =
        .ret (body, E.ToLower N, true)) ∧
      (∀ a, st.Factoidaliases.lookup a = some (E.ToLower O) →
        st.Factoids.lookup a = none ∨ a = E.ToLower O →
        ∀ fuel1, getFactoidByKey r.state (fuel1 + 2) a = .ret (body, E.ToLower N, true)) := by
  have hne : E.ToLower N ≠ E.ToLower O := by
    intro h
    rw [h, hold] at hnf
    exact Option.noConfusion hnf
  have hnew : ((st.Factoids.insert (E.ToLower N) body).erase (E.ToLower O)).lookup (E.ToLower N)
      = some body := by
    rw [lookup_erase_eq, if_neg hne, lookup_insert_eq, if_pos rfl]
  have hgone : ((st.Factoids.insert (E.ToLower N) body).erase (E.ToLower O)).lookup (E.ToLower O)
      = none := by
    rw [lookup_erase_eq, if_pos rfl]
  refine ⟨_, rename_ok_eq E st fuel nick O N rest body hold hvalid hnf hna, rfl, ?_, ?_, ?_⟩
  · intro hoa fuel1
    have h1 : (renameAliasesOf st.Factoidaliases (E.ToLower O) (E.ToLower N)).lookup (E.ToLower O)
        = none := by
      rw [lookup_renameAliasesOf, hoa]
      simp
    simp [getFactoidByKey, adminFinish, invalidate, hgone, h1]
  · intro fuel1
    simp [getFactoidByKey, adminFinish, invalidate, hnew]
  · intro a ha hcan fuel1
    have h1 : (renameAliasesOf st.Factoidaliases (E.ToLower O) (E.ToLower N)).lookup a
        = some (E.ToLower N) := by
      rw [lookup_renameAliasesOf, if_pos ha]
    have h2 : ((st.Factoids.insert (E.ToLower N) body).erase (E.ToLower O)).lookup a = none := by
      rcases hcan with h | h
      · have han : a ≠ E.ToLower N := by
          intro h'
          rw [h', hna] at ha
          exact Option.noConfusion ha
        rw [lookup_erase_eq, lookup_insert_eq, if_neg han, h]
        simp
      · rw [h]; exact hgone
    simp [getFactoidByKey, adminFinish, invalidate, h1, h2, hnew]

/-- Renaming the canonical key `k` of `storePlain` to the fresh key `new`. -/
theorem rename_ok_resolves_witness :
    storePlain.Factoids.lookup (goEnv.ToLower "K") = some "y" ∧
    goEnv.isalpha (goEnv.ToLower "New") = true ∧
    storePlain.Factoids.lookup (goEnv.ToLower "New") = none ∧
    storePlain.Factoidaliases.lookup (goEnv.ToLower "New") = none ∧
    ∃ r, tryHandleAdminFactoid goEnv storePlain 0 "nick" ["rename", "K", "New"] = .ret r ∧
      r.savestate = true ∧
      (storePlain.Factoidaliases.lookup (goEnv.ToLower "K") = none →
        ∀ fuel1, getFactoidByKey r.state (fuel1 + 1) (goEnv.ToLower "K") =
          .ret ("", "", false)) ∧
      (∀ fuel1, getFactoidByKey r.state (fuel1 + 1) (goEnv.ToLower "New") =
        .ret ("y", goEnv.ToLower "New", true)) ∧
      (∀ a, storePlain.Factoidaliases.lookup a = some (goEnv.ToLower "K") →
        storePlain.Factoids.lookup a = none ∨ a = goEnv.ToLower "K" →
        ∀ fuel1, getFactoidByKey r.state (fuel1 + 2) a =
          .ret ("y", goEnv.ToLower "New", true)) :=
  ⟨by decide, by decide, by decide, by decide,
    rename_ok_resolves goEnv storePlain 0 "nick" "K" "New" [] "y"
      (by decide) (by decide) (by decide) (by decide)⟩

/-- C3 fails as stated, in two ways.  In `storeOverlap` the alias `a` points to
the canonical key `k` and is canonical itself: after `rename k new` it resolves
to its own body, not to `new`.  In `storeSelfAlias` the canonical key `old` is
also an alias key: after `rename old new` the key `old` still resolves. -/
theorem rename_ok_resolves_counterexample :
    (storeOverlap.Factoids.lookup "k" = some "y" ∧
      goEnv.isalpha "new" = true ∧
      storeOverlap.Factoids.lookup "new" = none ∧
      storeOverlap.Factoidaliases.lookup "new" = none ∧
      storeOverlap.Factoidaliases.lookup "a" = some "k" ∧
      ∃ r, tryHandleAdminFactoid goEnv storeOverlap 0 "nick" ["rename", "k", "new"] = .ret r ∧
        r.savestate = true ∧
        getFactoidByKey r.state 2 "a" = .ret ("x", "a", true)) ∧
    (runAdmin goEnv 1 "nick" emptyGlobals [["add", "old", "b"], ["addalias", "old", "old"]]
        = .ret storeSelfAlias ∧
      storeSelfAlias.Factoids.lookup "old" = some "b" ∧
      storeSelfAlias.Factoids.lookup "new" = none ∧
      storeSelfAlias.Factoidaliases.lookup "new" = none ∧
      ∃ r, tryHandleAdminFactoid goEnv storeSelfAlias 0 "nick" ["rename", "old", "new"]
          = .ret r ∧
        r.savestate = true ∧
        getFactoidByKey r.state 2 "old" = .ret ("b", "new", true)) := by
  refine ⟨⟨by decide, by decide, by decide, by decide, by decide, _,
      rename_ok_eq goEnv storeOverlap 0 "nick" "k" "new" [] "y"
        (by decide) (by decide) (by decide) (by decide), rfl, by decide⟩,
    ⟨rfl, by decide, by decide, by decide, _,
      rename_ok_eq goEnv storeSelfAlias 0 "nick" "old" "new" [] "b"
        (by decide) (by decide) (by decide) (by decide), rfl, by decide⟩⟩

/-- C4: a `rename old new` whose new key already exists as a canonical key or as
an alias key returns with the factoid map and the alias map (indeed all
globals) as they were and with `savestate = false`. -/
theorem rename_conflict_no_mutation (E : Env) (st : Globals) (fuel : Nat)
    (nick O N : String) (rest : List String)
    (hex : st.Factoids.lookup (E.ToLower N) ≠ none ∨
      st.Factoidaliases.lookup (E.ToLower N) ≠ none) :
    ∃ r, tryHandleAdminFactoid E st fuel nick ("rename" :: O :: N :: rest) = .ret r ∧
      r.state.Factoids = st.Factoids ∧
      r.state.Factoidaliases = st.Factoidaliases ∧
      r.state = st ∧
      r.savestate = false := by
  by_cases hv : E.isalpha (E.ToLower N) = true
  · by_cases hf : (st.Factoids.lookup (E.ToLower N)).isSome = true
    · exact ⟨_, by simp [tryHandleAdminFactoid, hv, hf]; rfl, rfl, rfl, rfl, rfl⟩
    · have hfn : st.Factoids.lookup (E.ToLower N) = none := by
        simpa using hf
      have ha : (st.Factoidaliases.lookup (E.ToLower N)).isSome = true := by
        rcases hex with h | h
        · exact absurd hfn h
        · exact Option.isSome_iff_ne_none.2 h
      exact ⟨_, by simp [tryHandleAdminFactoid, hv, hfn, ha]; rfl, rfl, rfl, rfl, rfl⟩
  · exact ⟨_, by simp [tryHandleAdminFactoid, hv]; rfl, rfl, rfl, rfl, rfl⟩

/-- Renaming onto `b`, an alias key of `storePlain`, changes nothing. -/
theorem rename_conflict_no_mutation_witness :
    (storePlain.Factoids.lookup (goEnv.ToLower "B") ≠ none ∨
      storePlain.Factoidaliases.lookup (goEnv.ToLower "B") ≠ none) ∧
    ∃ r, tryHandleAdminFactoid goEnv storePlain 0 "nick" ["rename", "k", "B"] = .ret r ∧
      r.state.Factoids = storePlain.Factoids ∧
      r.state.Factoidaliases = storePlain.Factoidaliases ∧
      r.state = storePlain ∧
      r.savestate = false :=
  ⟨by decide, rename_conflict_no_mutation goEnv storePlain 0 "nick" "k" "B" [] (by decide)⟩


/-! ## Invariants of the store -/

/-- What the `restartdelete` loop can return: the globals untouched, or a
canonical key deleted together with the aliases that pointed to it. -/
theorem delLoop_ret (nick : String) (st : Globals) :
    ∀ (fuel : Nat) (fk : String) (ns : List Notice) (st1 : Globals) (ns1 : List Notice),
      delLoop nick st fuel fk ns = .ret (st1, ns1) →
        st1 = st ∨
        ∃ k body, st.Factoids.lookup k = some body ∧
          st1 = { st with
                    Factoids := st.Factoids.erase k
                    Factoidaliases := delAliasesOf st.Factoidaliases k } := by
  intro fuel
  induction fuel with
  | zero => intro fk ns st1 ns1 h; simp [delLoop] at h
  | succ n ih =>
    intro fk ns st1 ns1 h
    unfold delLoop at h
    cases hf : st.Factoids.lookup fk with
    | some body =>
      rw [hf] at h
      simp only [Outcome.ret.injEq, Prod.mk.injEq] at h
      exact Or.inr ⟨fk, body, hf, h.1.symm⟩
    | none =>
      rw [hf] at h
      cases ha : st.Factoidaliases.lookup fk with
      | some fk1 =>
        rw [ha] at h
        exact ih fk1 _ st1 ns1 h
      | none =>
        rw [ha] at h
        simp only [Outcome.ret.injEq, Prod.mk.injEq] at h
        exact Or.inl h.1.symm

/-- The `restartdelete` loop never panics. -/
theorem delLoop_ne_panic (nick : String) (st : Globals) :
    ∀ (fuel : Nat) (fk : String) (ns : List Notice), delLoop nick st fuel fk ns ≠ .panic := by
  intro fuel
  induction fuel with
  | zero => intro fk ns; simp [delLoop]
  | succ n ih =>
    intro fk ns
    unfold delLoop
    cases hf : st.Factoids.lookup fk with
    | some body => simp
    | none =>
      cases ha : st.Factoidaliases.lookup fk with
      | some fk1 => exact ih fk1 _
      | none => simp

theorem adminFinish_Factoids (st : Globals) (b : Bool) (ns : List Notice) :
    (adminFinish st b ns).state.Factoids = st.Factoids := by
  cases b <;> rfl

theorem adminFinish_Factoidaliases (st : Globals) (b : Bool) (ns : List Notice) :
    (adminFinish st b ns).state.Factoidaliases = st.Factoidaliases := by
  cases b <;> rfl

/-- The maps a returning admin command leaves behind are the maps it found, or
one of the five updates the `switch` can make. -/
theorem admin_shape (E : Env) (st : Globals) (fuel : Nat) (nick command p1 : String)
    (rest : List String) (r : AdminResult)
    (hret : tryHandleAdminFactoid E st fuel nick (command :: p1 :: rest) = .ret r) :
    (r.state.Factoids = st.Factoids ∧ r.state.Factoidaliases = st.Factoidaliases) ∨
    ((command = "add" ∨ command = "mod") ∧ rest ≠ [] ∧
      ∃ factoid, r.state.Factoids = st.Factoids.insert (E.ToLower p1) factoid ∧
        r.state.Factoidaliases = st.Factoidaliases) ∨
    (command = "del" ∧ ∃ k body, st.Factoids.lookup k = some body ∧
      r.state.Factoids = st.Factoids.erase k ∧
      r.state.Factoidaliases = delAliasesOf st.Factoidaliases k) ∨
    (command = "rename" ∧ ∃ new body, st.Factoids.lookup (E.ToLower p1) = some body ∧
      st.Factoids.lookup new = none ∧ st.Factoidaliases.lookup new = none ∧
      r.state.Factoids = (st.Factoids.insert new body).erase (E.ToLower p1) ∧
      r.state.Factoidaliases = renameAliasesOf st.Factoidaliases (E.ToLower p1) new) ∨
    ((command = "addalias" ∨ command = "modalias") ∧ rest ≠ [] ∧
      ∃ k body, st.Factoids.lookup k = some body ∧
        r.state.Factoids = st.Factoids ∧
        r.state.Factoidaliases = st.Factoidaliases.insert (E.ToLower p1) k) ∨
    (command = "delalias" ∧ r.state.Factoids = st.Factoids ∧
      r.state.Factoidaliases = st.Factoidaliases.erase (E.ToLower p1)) := by
  unfold tryHandleAdminFactoid at hret
  simp only at hret
  split_ifs at hret with h1 h2 h3 h4 h5 h6 h7 h8 h9 h10 h11
  · obtain rfl := Outcome.ret.inj hret
    exact Or.inl ⟨rfl, rfl⟩
  · obtain rfl := Outcome.ret.inj hret
    refine Or.inr (Or.inl ⟨h1, ?_, _, rfl, rfl⟩)
    intro hrest
    apply h2
    simp [hrest]
  · split at hret
    · rename_i st1 notices heq
      obtain rfl := Outcome.ret.inj hret
      rcases delLoop_ret nick st fuel _ _ st1 notices heq with h | ⟨k, body, hk, h⟩
      · subst h
        exact Or.inl ⟨rfl, rfl⟩
      · subst h
        exact Or.inr (Or.inr (Or.inl ⟨h3, k, body, hk, rfl, rfl⟩))
    · exact Outcome.noConfusion hret
    · exact Outcome.noConfusion hret
  · obtain rfl := Outcome.ret.inj hret
    exact Or.inl ⟨rfl, rfl⟩
  · obtain rfl := Outcome.ret.inj hret
    exact Or.inl ⟨rfl, rfl⟩
  · obtain rfl := Outcome.ret.inj hret
    exact Or.inl ⟨rfl, rfl⟩
  · split at hret
    · rename_i body heq
      obtain rfl := Outcome.ret.inj hret
      refine Or.inr (Or.inr (Or.inr (Or.inl ⟨h4, _, body, heq, ?_, ?_, rfl, rfl⟩)))
      · simpa using h6
      · simpa using h7
    · obtain rfl := Outcome.ret.inj hret
      exact Or.inl ⟨rfl, rfl⟩
  · obtain rfl := Outcome.ret.inj hret
    exact Or.inl ⟨rfl, rfl⟩
  · split at hret
    · rename_i f k ok heq
      cases ok with
      | true =>
        obtain rfl := Outcome.ret.inj hret
        refine Or.inr (Or.inr (Or.inr (Or.inr (Or.inl
          ⟨h8, ?_, k, f, getFactoidByKey_ok st fuel _ f k heq, rfl, rfl⟩))))
        intro hrest
        apply h9
        simp [hrest]
      | false =>
        obtain rfl := Outcome.ret.inj hret
        exact Or.inl ⟨rfl, rfl⟩
    · exact Outcome.noConfusion hret
    · exact Outcome.noConfusion hret
  · obtain rfl := Outcome.ret.inj hret
    exact Or.inr (Or.inr (Or.inr (Or.inr (Or.inr ⟨h10, rfl, rfl⟩))))
  · obtain rfl := Outcome.ret.inj hret
    exact Or.inl ⟨rfl, rfl⟩
  · obtain rfl := Outcome.ret.inj hret
    exact Or.inl ⟨rfl, rfl⟩


/-- An admin command with at least two parts never panics. -/
theorem admin_ne_panic (E : Env) (st : Globals) (fuel : Nat) (nick command p1 : String)
    (rest : List String) :
    tryHandleAdminFactoid E st fuel nick (command :: p1 :: rest) ≠ .panic := by
  intro hret
  unfold tryHandleAdminFactoid at hret
  simp only at hret
  split_ifs at hret
  · split at hret
    · exact Outcome.noConfusion hret
    · rename_i heq
      exact delLoop_ne_panic nick st fuel _ _ heq
    · exact Outcome.noConfusion hret
  · split at hret <;> exact Outcome.noConfusion hret
  · split at hret
    · split_ifs at hret
    · rename_i heq
      exact getFactoidByKey_ne_panic st fuel _ heq
    · exact Outcome.noConfusion hret

/-- The commands without a loop (all but `del`, `addalias` and `modalias`)
return whatever the fuel. -/
theorem admin_returns_loopfree (E : Env) (st : Globals) (fuel : Nat)
    (nick command p1 : String) (rest : List String)
    (h1 : command ≠ "del") (h2 : command ≠ "addalias") (h3 : command ≠ "modalias") :
    ∃ r, tryHandleAdminFactoid E st fuel nick (command :: p1 :: rest) = .ret r := by
  unfold tryHandleAdminFactoid
  simp only
  split_ifs with h4 h5 h6 h7 h8 h9 h10 h11 h12
  all_goals first
    | exact ⟨_, rfl⟩
    | (exfalso; rcases h10 with h | h; exact h2 h; exact h3 h)
    | skip
  split <;> exact ⟨_, rfl⟩

/-- When every alias points to a canonical key, the resolver returns within two
passes. -/
theorem getFactoidByKey_returns (st : Globals) (hinv : AliasesResolve st) (fuel : Nat)
    (key : String) : ∃ x, getFactoidByKey st (fuel + 2) key = .ret x := by
  unfold getFactoidByKey
  cases hf : st.Factoids.lookup key with
  | some body => exact ⟨_, rfl⟩
  | none =>
    cases ha : st.Factoidaliases.lookup key with
    | none => exact ⟨_, rfl⟩
    | some k =>
      cases hk : st.Factoids.lookup k with
      | none => exact absurd hk (hinv key k ha)
      | some body => exact ⟨(body, k, true), by simp [getFactoidByKey, hk]⟩

/-- When every alias points to a canonical key, the `restartdelete` loop
returns within two passes. -/
theorem delLoop_returns (nick : String) (st : Globals) (hinv : AliasesResolve st) (fuel : Nat)
    (fk : String) (ns : List Notice) : ∃ x, delLoop nick st (fuel + 2) fk ns = .ret x := by
  unfold delLoop
  cases hf : st.Factoids.lookup fk with
  | some body => exact ⟨_, rfl⟩
  | none =>
    cases ha : st.Factoidaliases.lookup fk with
    | none => exact ⟨_, rfl⟩
    | some k =>
      cases hk : st.Factoids.lookup k with
      | none => exact absurd hk (hinv fk k ha)
      | some body => exact ⟨_, by simp [delLoop, hk]; rfl⟩

/-- When every alias points to a canonical key, every admin command with at
least two parts returns, given fuel for two passes through a loop. -/
theorem admin_returns (E : Env) (st : Globals) (hinv : AliasesResolve st) (fuel : Nat)
    (nick command p1 : String) (rest : List String) :
    ∃ r, tryHandleAdminFactoid E st (fuel + 2) nick (command :: p1 :: rest) = .ret r := by
  by_cases hd : command = "del"
  · obtain ⟨⟨st1, ns1⟩, hx⟩ := delLoop_returns nick st hinv fuel (E.ToLower p1) []
    exact ⟨_, by simp [tryHandleAdminFactoid, hd, hx]; rfl⟩
  · by_cases ha : command = "addalias" ∨ command = "modalias"
    · obtain ⟨⟨f, k, ok⟩, hx⟩ := getFactoidByKey_returns st hinv fuel
        (match rest with
          | [] => ""
          | p2 :: _ => E.ToLower p2)
      have hne : ¬ (command = "add" ∨ command = "mod") := by
        rcases ha with h | h <;> simp [h]
      have hnr : command ≠ "rename" := by
        rcases ha with h | h <;> simp [h]
      unfold tryHandleAdminFactoid
      simp only [if_neg hne, if_neg hd, if_neg hnr, if_pos ha, hx]
      split_ifs <;> exact ⟨_, rfl⟩
    · exact admin_returns_loopfree E st (fuel + 2) nick command p1 rest hd
        (fun h => ha (Or.inl h)) (fun h => ha (Or.inr h))


/-- In `storePlain` no key is both an alias key and a canonical key. -/
theorem storePlain_noOverlap : NoOverlap storePlain := by
  intro k hk
  have hmem : k ∈ storePlain.Factoidaliases.keys :=
    AList.mem_keys.1 (by_contra fun h => hk (AList.lookup_eq_none.2 h))
  have hkeys : storePlain.Factoidaliases.keys = ["a", "b", "c"] := by decide
  rw [hkeys] at hmem
  simp only [List.mem_cons, List.mem_singleton, List.not_mem_nil, or_false] at hmem
  rcases hmem with rfl | rfl | rfl <;> decide

/-- In `storePlain` every alias points to a canonical key. -/
theorem storePlain_aliasesResolve : AliasesResolve storePlain := by
  intro a k hak
  have hmem : a ∈ storePlain.Factoidaliases.keys :=
    AList.mem_keys.1 (by_contra fun h => by
      rw [AList.lookup_eq_none.2 h] at hak
      exact Option.noConfusion hak)
  have hkeys : storePlain.Factoidaliases.keys = ["a", "b", "c"] := by decide
  rw [hkeys] at hmem
  simp only [List.mem_cons, List.mem_singleton, List.not_mem_nil, or_false] at hmem
  rcases hmem with rfl | rfl | rfl
  · have h : storePlain.Factoidaliases.lookup "a" = some "k" := by decide
    rw [h] at hak
    obtain rfl := Option.some.inj hak
    decide
  · have h : storePlain.Factoidaliases.lookup "b" = some "k" := by decide
    rw [h] at hak
    obtain rfl := Option.some.inj hak
    decide
  · have h : storePlain.Factoidaliases.lookup "c" = some "j" := by decide
    rw [h] at hak
    obtain rfl := Option.some.inj hak
    decide

/-- C5 (as amended): the admin commands keep the alias keys and the canonical
keys apart, except `add`/`mod` on a key that is an alias key and
`addalias`/`modalias` on an alias key that is a canonical key.  For a store
without overlap and a command of at least two parts that is not one of these:
the command does not panic, it returns if it is not one of the looping
commands, and whenever it returns the resulting store has no overlap. -/
theorem noOverlap_preserved (E : Env) (st : Globals) (fuel : Nat) (nick command p1 : String)
    (rest : List String) (hinv : NoOverlap st)
    (hadd : command = "add" ∨ command = "mod" → rest ≠ [] →
      st.Factoidaliases.lookup (E.ToLower p1) = none)
    (halias : command = "addalias" ∨ command = "modalias" → rest ≠ [] →
      st.Factoids.lookup (E.ToLower p1) = none) :
    tryHandleAdminFactoid E st fuel nick (command :: p1 :: rest) ≠ .panic ∧
    (command ≠ "del" → command ≠ "addalias" → command ≠ "modalias" →
      ∃ r, tryHandleAdminFactoid E st fuel nick (command :: p1 :: rest) = .ret r) ∧
    ∀ r, tryHandleAdminFactoid E st fuel nick (command :: p1 :: rest) = .ret r →
      NoOverlap r.state := by
  refine ⟨admin_ne_panic E st fuel nick command p1 rest,
    admin_returns_loopfree E st fuel nick command p1 rest, ?_⟩
  intro r hret
  rcases admin_shape E st fuel nick command p1 rest r hret with
    ⟨hF, hA⟩ | ⟨hc, hr, factoid, hF, hA⟩ | ⟨_, k, body, _, hF, hA⟩ |
    ⟨_, new, body, _, hnf, hna, hF, hA⟩ | ⟨hc, hr, k, body, _, hF, hA⟩ | ⟨_, hF, hA⟩
  · intro x hx
    rw [hA] at hx
    rw [hF]
    exact hinv x hx
  · intro x hx
    rw [hA] at hx
    rw [hF, lookup_insert_eq]
    have hxk : x ≠ E.ToLower p1 := by
      intro h
      rw [h] at hx
      exact hx (hadd hc hr)
    rw [if_neg hxk]
    exact hinv x hx
  · intro x hx
    rw [hA, lookup_delAliasesOf] at hx
    rw [hF, lookup_erase_eq]
    have hx1 : st.Factoidaliases.lookup x ≠ none := by
      intro h
      rw [h] at hx
      simp at hx
    simp [hinv x hx1]
  · intro x hx
    rw [hA, lookup_renameAliasesOf] at hx
    have hx1 : st.Factoidaliases.lookup x ≠ none := by
      intro h
      rw [h] at hx
      simp at hx
    have hxn : x ≠ new := by
      intro h
      rw [h] at hx1
      exact hx1 hna
    rw [hF, lookup_erase_eq, lookup_insert_eq, if_neg hxn, hinv x hx1]
    simp
  · intro x hx
    rw [hF]
    by_cases hxk : x = E.ToLower p1
    · rw [hxk]
      exact halias hc hr
    · rw [hA, lookup_insert_eq, if_neg hxk] at hx
      exact hinv x hx
  · intro x hx
    rw [hA, lookup_erase_eq] at hx
    rw [hF]
    by_cases hxk : x = E.ToLower p1
    · simp [hxk] at hx
    · rw [if_neg hxk] at hx
      exact hinv x hx


/-- Adding the fresh key `z` to `storePlain` keeps alias keys and canonical keys apart. -/
theorem noOverlap_preserved_witness :
    NoOverlap storePlain ∧
    storePlain.Factoidaliases.lookup (goEnv.ToLower "z") = none ∧
    tryHandleAdminFactoid goEnv storePlain 0 "nick" ["add", "z", "body"] ≠ .panic ∧
    (("add" : String) ≠ "del" → ("add" : String) ≠ "addalias" → ("add" : String) ≠ "modalias" →
      ∃ r, tryHandleAdminFactoid goEnv storePlain 0 "nick" ["add", "z", "body"] = .ret r) ∧
    ∀ r, tryHandleAdminFactoid goEnv storePlain 0 "nick" ["add", "z", "body"] = .ret r →
      NoOverlap r.state :=
  ⟨storePlain_noOverlap, by decide,
    noOverlap_preserved goEnv storePlain 0 "nick" "add" "z" ["body"] storePlain_noOverlap
      (fun _ _ => by decide) (fun h _ => absurd h (by decide))⟩

/-- C5 fails as stated: `storePlain` has no overlap, yet `add a x`, whose key is
an alias key, and `addalias k j`, whose alias key is a canonical key, each
return a store in which one key is both an alias key and a canonical key. -/
theorem noOverlap_preserved_counterexample :
    NoOverlap storePlain ∧
    (∃ r, tryHandleAdminFactoid goEnv storePlain 0 "nick" ["add", "a", "x"] = .ret r ∧
      r.state.Factoidaliases.lookup "a" = some "k" ∧
      r.state.Factoids.lookup "a" = some "x" ∧
      ¬ NoOverlap r.state) ∧
    (∃ r, tryHandleAdminFactoid goEnv storePlain 1 "nick" ["addalias", "k", "j"] = .ret r ∧
      r.state.Factoidaliases.lookup "k" = some "j" ∧
      r.state.Factoids.lookup "k" = some "y" ∧
      ¬ NoOverlap r.state) := by
  refine ⟨storePlain_noOverlap, ⟨_, rfl, by decide, by decide, ?_⟩,
    ⟨_, rfl, by decide, by decide, ?_⟩⟩
  · intro h
    exact absurd (h "a" (by decide)) (by decide)
  · intro h
    exact absurd (h "k" (by decide)) (by decide)

/-- C6: every admin command with at least two parts, run on a store in which
every value of the alias map is a key of the factoid map, returns (two passes
through a loop are enough) and leaves a store with the same property. -/
theorem aliasesResolve_preserved (E : Env) (st : Globals) (fuel : Nat)
    (nick command p1 : String) (rest : List String) (hinv : AliasesResolve st) :
    ∃ r, tryHandleAdminFactoid E st (fuel + 2) nick (command :: p1 :: rest) = .ret r ∧
      AliasesResolve r.state := by
  obtain ⟨r, hret⟩ := admin_returns E st hinv fuel nick command p1 rest
  refine ⟨r, hret, ?_⟩
  rcases admin_shape E st (fuel + 2) nick command p1 rest r hret with
    ⟨hF, hA⟩ | ⟨_, _, factoid, hF, hA⟩ | ⟨_, k, body, _, hF, hA⟩ |
    ⟨_, new, body, hold, hnf, hna, hF, hA⟩ | ⟨_, _, k, body, hk, hF, hA⟩ | ⟨_, hF, hA⟩
  · intro a v hav
    rw [hA] at hav
    rw [hF]
    exact hinv a v hav
  · intro a v hav
    rw [hA] at hav
    rw [hF, lookup_insert_eq]
    by_cases hv : v = E.ToLower p1
    · simp [hv]
    · rw [if_neg hv]
      exact hinv a v hav
  · intro a v hav
    rw [hA, lookup_delAliasesOf] at hav
    by_cases hak : st.Factoidaliases.lookup a = some k
    · rw [if_pos hak] at hav
      exact Option.noConfusion hav
    · rw [if_neg hak] at hav
      have hvk : v ≠ k := by
        intro h
        rw [h] at hav
        exact hak hav
      rw [hF, lookup_erase_eq, if_neg hvk]
      exact hinv a v hav
  · have hne : new ≠ E.ToLower p1 := by
      intro h
      rw [h, hold] at hnf
      exact Option.noConfusion hnf
    intro a v hav
    rw [hA, lookup_renameAliasesOf] at hav
    rw [hF, lookup_erase_eq, lookup_insert_eq]
    by_cases hak : st.Factoidaliases.lookup a = some (E.ToLower p1)
    · rw [if_pos hak] at hav
      obtain rfl := Option.some.inj hav
      simp [hne]
    · rw [if_neg hak] at hav
      have hvo : v ≠ E.ToLower p1 := by
        intro h
        rw [h] at hav
        exact hak hav
      rw [if_neg hvo]
      by_cases hvn : v = new
      · simp [hvn]
      · rw [if_neg hvn]
        exact hinv a v hav
  · intro a v hav
    rw [hA, lookup_insert_eq] at hav
    rw [hF]
    by_cases hak : a = E.ToLower p1
    · rw [if_pos hak] at hav
      obtain rfl := Option.some.inj hav
      simp [hk]
    · rw [if_neg hak] at hav
      exact hinv a v hav
  · intro a v hav
    rw [hA, lookup_erase_eq] at hav
    rw [hF]
    by_cases hak : a = E.ToLower p1
    · rw [if_pos hak] at hav
      exact Option.noConfusion hav
    · rw [if_neg hak] at hav
      exact hinv a v hav

/-- Deleting through the alias `a` of `storePlain` keeps every alias pointing to a factoid. -/
theorem aliasesResolve_preserved_witness :
    AliasesResolve storePlain ∧
    ∃ r, tryHandleAdminFactoid goEnv storePlain 2 "nick" ["del", "a"] = .ret r ∧
      AliasesResolve r.state :=
  ⟨storePlain_aliasesResolve,
    aliasesResolve_preserved goEnv storePlain 0 "nick" "del" "a" [] storePlain_aliasesResolve⟩


/-! ## Key validation and the alias commands -/

/-- What `add`/`mod` do when a body is given: the body, `parts[2]` or, for
exactly four parts, `parts[2] + " " + parts[3]`, is stored under the
lower-cased `parts[1]`. -/
theorem add_eq (E : Env) (st : Globals) (fuel : Nat) (nick command K B : String)
    (rest : List String) (hc : command = "add" ∨ command = "mod") :
    tryHandleAdminFactoid E st fuel nick (command :: K :: B :: rest) =
      .ret (adminFinish
        { st with
            Factoids := st.Factoids.insert (E.ToLower K)
              (match rest with
                | [p3] => B ++ " " ++ p3
                | _ => B) }
        true [(nick, ["Added/Modified successfully"])]) := by
  rcases hc with h | h <;> subst h <;>
    cases rest with
    | nil => simp [tryHandleAdminFactoid]
    | cons p3 rest2 =>
      cases rest2 with
      | nil => simp [tryHandleAdminFactoid]
      | cons p4 rest3 => simp [tryHandleAdminFactoid]

/-- C7 (as amended): a `rename` whose target key (lower-cased `parts[2]`) fails
`isalpha` is rejected with all globals, both maps included, unchanged and
`savestate = false`; `add`/`mod` apply no key validation: with a body they
store it under the lower-cased `parts[1]` whatever that key looks like. -/
theorem rename_invalid_key_rejected (E : Env) (st : Globals) (fuel : Nat) (nick : String) :
    (∀ (O N : String) (rest : List String), E.isalpha (E.ToLower N) = false →
      ∃ r, tryHandleAdminFactoid E st fuel nick ("rename" :: O :: N :: rest) = .ret r ∧
        r.state.Factoids = st.Factoids ∧
        r.state.Factoidaliases = st.Factoidaliases ∧
        r.state = st ∧ r.abort = true ∧ r.savestate = false) ∧
    (∀ (command K B : String) (rest : List String), command = "add" ∨ command = "mod" →
      ∃ r, tryHandleAdminFactoid E st fuel nick (command :: K :: B :: rest) = .ret r ∧
        r.state.Factoids.lookup (E.ToLower K) =
          some (match rest with
            | [p3] => B ++ " " ++ p3
            | _ => B) ∧
        r.state.Factoidaliases = st.Factoidaliases ∧
        r.savestate = true) := by
  constructor
  · intro O N rest hbad
    exact ⟨_, by simp [tryHandleAdminFactoid, hbad]; rfl, rfl, rfl, rfl, rfl, rfl⟩
  · intro command K B rest hc
    refine ⟨_, add_eq E st fuel nick command K B rest hc, ?_, rfl, rfl⟩
    simp [adminFinish, invalidate]

/-- In `storePlain`, renaming to `n3w` is rejected while adding `a1` is not. -/
theorem rename_invalid_key_rejected_witness :
    goEnv.isalpha (goEnv.ToLower "n3w") = false ∧
    (∃ r, tryHandleAdminFactoid goEnv storePlain 0 "nick" ["rename", "k", "n3w"] = .ret r ∧
        r.state.Factoids = storePlain.Factoids ∧
        r.state.Factoidaliases = storePlain.Factoidaliases ∧
        r.state = storePlain ∧ r.abort = true ∧ r.savestate = false) ∧
    (∃ r, tryHandleAdminFactoid goEnv storePlain 0 "nick" ["add", "a1", "x"] = .ret r ∧
        r.state.Factoids.lookup (goEnv.ToLower "a1") = some "x" ∧
        r.state.Factoidaliases = storePlain.Factoidaliases ∧
        r.savestate = true) :=
  ⟨by decide,
    (rename_invalid_key_rejected goEnv storePlain 0 "nick").1 "k" "n3w" [] (by decide),
    (rename_invalid_key_rejected goEnv storePlain 0 "nick").2 "add" "a1" "x" []
      (Or.inl rfl)⟩

/-- C7 fails as stated: the key `a1` fails the alphabetic-only validation, yet
`add a1 x` on the empty store is not rejected: it stores the body `x` under
`a1` and asks for the state to be saved. -/
theorem rename_invalid_key_rejected_counterexample :
    goEnv.isalpha (goEnv.ToLower "a1") = false ∧
    emptyGlobals.Factoids.lookup "a1" = none ∧
    ∃ r, tryHandleAdminFactoid goEnv emptyGlobals 0 "nick" ["add", "a1", "x"] = .ret r ∧
      r.state.Factoids.lookup "a1" = some "x" ∧
      r.state.Factoids ≠ emptyGlobals.Factoids ∧
      r.savestate = true ∧
      r.notices = [("nick", ["Added/Modified successfully"])] := by
  refine ⟨by decide, by decide, _, rfl, by decide, ?_, rfl, rfl⟩
  intro h
  have h1 := congrArg (fun m => AList.lookup "a1" m) h
  revert h1
  decide

/-- What `addalias`/`modalias` do once the target resolved: the alias key is set
to the resolved canonical key. -/
theorem addalias_ok_eq (E : Env) (st : Globals) (fuel : Nat) (nick command A T : String)
    (rest : List String) (body k : String)
    (hc : command = "addalias" ∨ command = "modalias")
    (hres : getFactoidByKey st fuel (E.ToLower T) = .ret (body, k, true)) :
    tryHandleAdminFactoid E st fuel nick (command :: A :: T :: rest) =
      .ret (adminFinish
        { st with Factoidaliases := st.Factoidaliases.insert (E.ToLower A) k } true
        [(nick, ["Added/Modified alias for ", k, " successfully"])]) := by
  rcases hc with h | h <;> subst h <;> simp [tryHandleAdminFactoid, hres]

/-- What `addalias`/`modalias` do when the target does not resolve: nothing but
a notice. -/
theorem addalias_fail_eq (E : Env) (st : Globals) (fuel : Nat) (nick command A T : String)
    (rest : List String) (f k : String)
    (hc : command = "addalias" ∨ command = "modalias")
    (hres : getFactoidByKey st fuel (E.ToLower T) = .ret (f, k, false)) :
    tryHandleAdminFactoid E st fuel nick (command :: A :: T :: rest) =
      .ret (adminFinish st false [(nick, ["No factoid with name ", k, " found"])]) := by
  rcases hc with h | h <;> subst h <;> simp [tryHandleAdminFactoid, hres]

/-- C8 (as amended): an `addalias`/`modalias` whose alias key already exists as
a canonical key or as an alias key does not abort on that account.  If the
target resolves to the canonical key `k`, the alias map becomes the old one
with the alias key set to `k` (a previous alias entry is replaced) and the
factoid map is unchanged; only if the target does not resolve are all globals,
both maps included, unchanged. -/
theorem addalias_existing_key (E : Env) (st : Globals) (fuel : Nat)
    (nick command A T : String) (rest : List String)
    (hc : command = "addalias" ∨ command = "modalias")
    (_hex : st.Factoids.lookup (E.ToLower A) ≠ none ∨
      st.Factoidaliases.lookup (E.ToLower A) ≠ none) :
    (∀ body k, getFactoidByKey st fuel (E.ToLower T) = .ret (body, k, true) →
      ∃ r, tryHandleAdminFactoid E st fuel nick (command :: A :: T :: rest) = .ret r ∧
        r.state.Factoidaliases = st.Factoidaliases.insert (E.ToLower A) k ∧
        r.state.Factoidaliases.lookup (E.ToLower A) = some k ∧
        r.state.Factoids = st.Factoids ∧
        r.savestate = true) ∧
    (∀ f k, getFactoidByKey st fuel (E.ToLower T) = .ret (f, k, false) →
      ∃ r, tryHandleAdminFactoid E st fuel nick (command :: A :: T :: rest) = .ret r ∧
        r.state = st ∧ r.savestate = false) := by
  constructor
  · intro body k hres
    refine ⟨_, addalias_ok_eq E st fuel nick command A T rest body k hc hres, rfl, ?_, rfl, rfl⟩
    simp [adminFinish, invalidate]
  · intro f k hres
    exact ⟨_, addalias_fail_eq E st fuel nick command A T rest f k hc hres, rfl, rfl⟩

/-- In `storePlain`, `modalias a c` re-points the existing alias `a` to `j`, the factoid behind `c`. -/
theorem addalias_existing_key_witness :
    (storePlain.Factoids.lookup (goEnv.ToLower "a") ≠ none ∨
      storePlain.Factoidaliases.lookup (goEnv.ToLower "a") ≠ none) ∧
    getFactoidByKey storePlain 2 (goEnv.ToLower "c") = .ret ("z", "j", true) ∧
    ∃ r, tryHandleAdminFactoid goEnv storePlain 2 "nick" ["modalias", "a", "c"] = .ret r ∧
      r.state.Factoidaliases = storePlain.Factoidaliases.insert (goEnv.ToLower "a") "j" ∧
      r.state.Factoidaliases.lookup (goEnv.ToLower "a") = some "j" ∧
      r.state.Factoids = storePlain.Factoids ∧
      r.savestate = true :=
  ⟨by decide, by decide,
    (addalias_existing_key goEnv storePlain 2 "nick" "modalias" "a" "c" [] (Or.inr rfl)
      (by decide)).1 "z" "j" (by decide)⟩

/-- C8 fails as stated: in `storePlain` the key `a` is an alias key (for `k`)
and `k` is a canonical key; `modalias a j` does not abort but re-points `a` to
`j`, and `addalias k j` does not abort but creates the alias `k`. -/
theorem addalias_existing_key_counterexample :
    (storePlain.Factoidaliases.lookup "a" = some "k" ∧
      ∃ r, tryHandleAdminFactoid goEnv storePlain 1 "nick" ["modalias", "a", "j"] = .ret r ∧
        r.state.Factoidaliases.lookup "a" = some "j" ∧
        r.state.Factoidaliases ≠ storePlain.Factoidaliases ∧
        r.savestate = true) ∧
    (storePlain.Factoids.lookup "k" = some "y" ∧
      storePlain.Factoidaliases.lookup "k" = none ∧
      ∃ r, tryHandleAdminFactoid goEnv storePlain 1 "nick" ["addalias", "k", "j"] = .ret r ∧
        r.state.Factoidaliases.lookup "k" = some "j" ∧
        r.state.Factoidaliases ≠ storePlain.Factoidaliases ∧
        r.savestate = true) := by
  refine ⟨⟨by decide, _, rfl, by decide, ?_, rfl⟩,
    ⟨by decide, by decide, _, rfl, by decide, ?_, rfl⟩⟩
  · intro h
    have h1 := congrArg (fun m => AList.lookup "a" m) h
    revert h1
    decide
  · intro h
    have h1 := congrArg (fun m => AList.lookup "k" m) h
    revert h1
    decide


/-- C9: for `addalias a t` / `modalias a t`, if `getFactoidByKey(t)` succeeds
with the key `k`, the command returns with the alias map mapping `a` to `k`,
where `k` is a key of the (unchanged) factoid map, so `a` never points to a key
that is missing from the factoid map, such as an alias passed through on the
way; if `getFactoidByKey(t)` fails, both maps are unchanged. -/
theorem addalias_points_to_canonical (E : Env) (st : Globals) (fuel : Nat)
    (nick command A T : String) (rest : List String)
    (hc : command = "addalias" ∨ command = "modalias") :
    (∀ body k, getFactoidByKey st fuel (E.ToLower T) = .ret (body, k, true) →
      ∃ r, tryHandleAdminFactoid E st fuel nick (command :: A :: T :: rest) = .ret r ∧
        r.state.Factoidaliases.lookup (E.ToLower A) = some k ∧
        r.state.Factoids.lookup k = some body ∧
        r.state.Factoids = st.Factoids ∧
        (∀ x, st.Factoids.lookup x = none →
          r.state.Factoidaliases.lookup (E.ToLower A) ≠ some x) ∧
        (∀ b, b ≠ E.ToLower A →
          r.state.Factoidaliases.lookup b = st.Factoidaliases.lookup b)) ∧
    (∀ f k, getFactoidByKey st fuel (E.ToLower T) = .ret (f, k, false) →
      ∃ r, tryHandleAdminFactoid E st fuel nick (command :: A :: T :: rest) = .ret r ∧
        r.state.Factoids = st.Factoids ∧
        r.state.Factoidaliases = st.Factoidaliases ∧
        r.savestate = false) := by
  constructor
  · intro body k hres
    have hk : st.Factoids.lookup k = some body := getFactoidByKey_ok st fuel _ body k hres
    have hl : (adminFinish
        { st with Factoidaliases := st.Factoidaliases.insert (E.ToLower A) k } true
        [(nick, ["Added/Modified alias for ", k, " successfully"])]).state.Factoidaliases.lookup
          (E.ToLower A) = some k := by
      simp [adminFinish, invalidate]
    refine ⟨_, addalias_ok_eq E st fuel nick command A T rest body k hc hres, hl, hk, rfl,
      ?_, ?_⟩
    · intro x hx
      rw [hl]
      intro h
      obtain rfl := Option.some.inj h
      rw [hx] at hk
      exact Option.noConfusion hk
    · intro b hb
      rw [adminFinish_Factoidaliases]
      exact AList.lookup_insert_ne hb
  · intro f k hres
    exact ⟨_, addalias_fail_eq E st fuel nick command A T rest f k hc hres, rfl, rfl, rfl⟩

/-- In `storePlain`, `addalias d C` points `d` at `j`, the factoid behind the alias `c`. -/
theorem addalias_points_to_canonical_witness :
    (("addalias" : String) = "addalias" ∨ ("addalias" : String) = "modalias") ∧
    getFactoidByKey storePlain 2 (goEnv.ToLower "C") = .ret ("z", "j", true) ∧
    ∃ r, tryHandleAdminFactoid goEnv storePlain 2 "nick" ["addalias", "d", "C"] = .ret r ∧
      r.state.Factoidaliases.lookup (goEnv.ToLower "d") = some "j" ∧
      r.state.Factoids.lookup "j" = some "z" ∧
      r.state.Factoids = storePlain.Factoids ∧
      (∀ x, storePlain.Factoids.lookup x = none →
        r.state.Factoidaliases.lookup (goEnv.ToLower "d") ≠ some x) ∧
      (∀ b, b ≠ goEnv.ToLower "d" →
        r.state.Factoidaliases.lookup b = storePlain.Factoidaliases.lookup b) :=
  ⟨Or.inl rfl, by decide,
    (addalias_points_to_canonical goEnv storePlain 2 "nick" "addalias" "d" "C" []
      (Or.inl rfl)).1 "z" "j" (by decide)⟩

/-- What `del` leaves behind when its key is not canonical but an alias of a
canonical key: two passes through `restartdelete`. -/
theorem del_alias_eq (E : Env) (st : Globals) (fuel : Nat) (nick A : String)
    (rest : List String) (k body : String)
    (ha : st.Factoids.lookup (E.ToLower A) = none)
    (hak : st.Factoidaliases.lookup (E.ToLower A) = some k)
    (hk : st.Factoids.lookup k = some body) :
    tryHandleAdminFactoid E st (fuel + 2) nick ("del" :: A :: rest) =
      .ret (adminFinish
        { st with
            Factoids := st.Factoids.erase k
            Factoidaliases := delAliasesOf st.Factoidaliases k }
        true
        [(nick, ["Found an alias, deleting the original factoid"]),
          (nick, ["Deleted successfully"])]) := by
  simp [tryHandleAdminFactoid, delLoop, ha, hak, hk]

/-- C10: `del a`, where `a` is not a canonical key but an alias of the canonical
key `k`, deletes `k` from the factoid map and removes every alias entry whose
value is `k`, the one of `a` included; every other factoid entry and every
alias entry pointing elsewhere is as before. -/
theorem del_alias_redirects (E : Env) (st : Globals) (fuel : Nat) (nick A : String)
    (rest : List String) (k body : String)
    (ha : st.Factoids.lookup (E.ToLower A) = none)
    (hak : st.Factoidaliases.lookup (E.ToLower A) = some k)
    (hk : st.Factoids.lookup k = some body) :
    ∃ r, tryHandleAdminFactoid E st (fuel + 2) nick ("del" :: A :: rest) = .ret r ∧
      r.savestate = true ∧
      r.state.Factoids.lookup k = none ∧
      (∀ x, x ≠ k → r.state.Factoids.lookup x = st.Factoids.lookup x) ∧
      r.state.Factoidaliases.lookup (E.ToLower A) = none ∧
      (∀ b, st.Factoidaliases.lookup b = some k → r.state.Factoidaliases.lookup b = none) ∧
      (∀ b, st.Factoidaliases.lookup b ≠ some k →
        r.state.Factoidaliases.lookup b = st.Factoidaliases.lookup b) := by
  refine ⟨_, del_alias_eq E st fuel nick A rest k body ha hak hk, rfl, ?_, ?_, ?_, ?_, ?_⟩
  · rw [adminFinish_Factoids]
    exact AList.lookup_erase k st.Factoids
  · intro x hx
    rw [adminFinish_Factoids]
    exact AList.lookup_erase_ne hx
  · rw [adminFinish_Factoidaliases]
    show (delAliasesOf st.Factoidaliases k).lookup (E.ToLower A) = none
    rw [lookup_delAliasesOf, if_pos hak]
  · intro b hb
    rw [adminFinish_Factoidaliases]
    show (delAliasesOf st.Factoidaliases k).lookup b = none
    rw [lookup_delAliasesOf, if_pos hb]
  · intro b hb
    rw [adminFinish_Factoidaliases]
    show (delAliasesOf st.Factoidaliases k).lookup b = st.Factoidaliases.lookup b
    rw [lookup_delAliasesOf, if_neg hb]

/-- In `storePlain`, `del A` deletes the factoid `k` behind the alias `a`. -/
theorem del_alias_redirects_witness :
    storePlain.Factoids.lookup (goEnv.ToLower "A") = none ∧
    storePlain.Factoidaliases.lookup (goEnv.ToLower "A") = some "k" ∧
    storePlain.Factoids.lookup "k" = some "y" ∧
    ∃ r, tryHandleAdminFactoid goEnv storePlain 2 "nick" ["del", "A"] = .ret r ∧
      r.savestate = true ∧
      r.state.Factoids.lookup "k" = none ∧
      (∀ x, x ≠ "k" → r.state.Factoids.lookup x = storePlain.Factoids.lookup x) ∧
      r.state.Factoidaliases.lookup (goEnv.ToLower "A") = none ∧
      (∀ b, storePlain.Factoidaliases.lookup b = some "k" →
        r.state.Factoidaliases.lookup b = none) ∧
      (∀ b, storePlain.Factoidaliases.lookup b ≠ some "k" →
        r.state.Factoidaliases.lookup b = storePlain.Factoidaliases.lookup b) :=
  ⟨by decide, by decide, by decide,
    del_alias_redirects goEnv storePlain 0 "nick" "A" [] "k" "y"
      (by decide) (by decide) (by decide)⟩


/-! ## The resolver on canonical keys, unknown keys and alias chains -/

/-- C17: for an alias chain `a1 -> a2 -> ... -> an -> k` of any length, where
`k` is a canonical key and none of `a1..an` is, `getFactoidByKey(a1)` returns
`(body of k, k, true)`; one pass through `restart` per key of the chain is
enough. -/
theorem getFactoidByKey_chain (st : Globals) (k body : String)
    (hk : st.Factoids.lookup k = some body) :
    ∀ (hops : List String) (a : String) (fuel : Nat), AliasPath st a hops k →
      getFactoidByKey st (fuel + hops.length + 1) a = .ret (body, k, true) := by
  intro hops
  induction hops with
  | nil =>
    intro a fuel hp
    have ha : a = k := hp
    subst ha
    simp [getFactoidByKey, hk]
  | cons b hops ih =>
    intro a fuel hp
    obtain ⟨h1, h2, h3⟩ := hp
    have hstep : getFactoidByKey st (fuel + (b :: hops).length + 1) a =
        getFactoidByKey st (fuel + hops.length + 1) b := by
      have hlen : fuel + (b :: hops).length + 1 = (fuel + hops.length + 1) + 1 := by
        simp only [List.length_cons]
        omega
      rw [hlen]
      simp [getFactoidByKey, h1, h2]
    rw [hstep]
    exact ih b fuel h3

/-- The chain `a1 -> a2 -> a3 -> k` of `storeChain` resolves to `k`. -/
theorem getFactoidByKey_chain_witness :
    storeChain.Factoids.lookup "k" = some "y" ∧
    AliasPath storeChain "a1" ["a2", "a3", "k"] "k" ∧
    getFactoidByKey storeChain (0 + ["a2", "a3", "k"].length + 1) "a1" = .ret ("y", "k", true) :=
  ⟨by decide, ⟨by decide, by decide, by decide, by decide, by decide, by decide, rfl⟩,
    getFactoidByKey_chain storeChain "k" "y" (by decide) ["a2", "a3", "k"] "a1" 0
      ⟨by decide, by decide, by decide, by decide, by decide, by decide, rfl⟩⟩

/-- C18: a key of the factoid map resolves to `(its body, itself, true)` in the
first pass, whatever the alias map holds. -/
theorem getFactoidByKey_canonical (st : Globals) (fuel : Nat) (k body : String)
    (hk : st.Factoids.lookup k = some body) :
    getFactoidByKey st (fuel + 1) k = .ret (body, k, true) ∧
    ∀ aliases : GoMap,
      getFactoidByKey { st with Factoidaliases := aliases } (fuel + 1) k = .ret (body, k, true) := by
  constructor
  · simp [getFactoidByKey, hk]
  · intro aliases
    simp [getFactoidByKey, hk]

/-- In `storeOverlap` the key `a` is canonical and an alias key; it resolves to
its own body. -/
theorem getFactoidByKey_canonical_witness :
    storeOverlap.Factoids.lookup "a" = some "x" ∧
    getFactoidByKey storeOverlap 1 "a" = .ret ("x", "a", true) ∧
    ∀ aliases : GoMap,
      getFactoidByKey { storeOverlap with Factoidaliases := aliases } 1 "a" =
        .ret ("x", "a", true) :=
  ⟨by decide, getFactoidByKey_canonical storeOverlap 0 "a" "x" (by decide)⟩

/-- C19: a key that is neither a key of the factoid map nor a key of the alias
map resolves to not-found (`ok = false`, with empty `factoid` and `key`) in the
first pass. -/
theorem getFactoidByKey_unknown (st : Globals) (fuel : Nat) (k : String)
    (hf : st.Factoids.lookup k = none) (ha : st.Factoidaliases.lookup k = none) :
    getFactoidByKey st (fuel + 1) k = .ret ("", "", false) := by
  simp [getFactoidByKey, hf, ha]

/-- The key `nope` is unknown to `storePlain`. -/
theorem getFactoidByKey_unknown_witness :
    storePlain.Factoids.lookup "nope" = none ∧
    storePlain.Factoidaliases.lookup "nope" = none ∧
    getFactoidByKey storePlain 1 "nope" = .ret ("", "", false) :=
  ⟨by decide, by decide, getFactoidByKey_unknown storePlain 0 "nope" (by decide) (by decide)⟩

/-- C20: in a store in which every value of the alias map is a key of the
factoid map, the `restart` loop of `getFactoidByKey` ends, for every key, after
at most two passes, that is after following at most one alias: fuel for two
passes gives a result, and more fuel gives the same result. -/
theorem getFactoidByKey_depth_one (st : Globals) (hinv : AliasesResolve st) (key : String) :
    ∃ x, getFactoidByKey st 2 key = .ret x ∧
      ∀ fuel, getFactoidByKey st (fuel + 2) key = .ret x := by
  cases hf : st.Factoids.lookup key with
  | some body =>
    exact ⟨(body, key, true), by simp [getFactoidByKey, hf],
      fun fuel => by simp [getFactoidByKey, hf]⟩
  | none =>
    cases ha : st.Factoidaliases.lookup key with
    | none =>
      exact ⟨("", "", false), by simp [getFactoidByKey, hf, ha],
        fun fuel => by simp [getFactoidByKey, hf, ha]⟩
    | some k =>
      cases hk : st.Factoids.lookup k with
      | none => exact absurd hk (hinv key k ha)
      | some body =>
        exact ⟨(body, k, true), by simp [getFactoidByKey, hf, ha, hk],
          fun fuel => by simp [getFactoidByKey, hf, ha, hk]⟩

/-- In `storePlain` the alias `b` resolves within two passes. -/
theorem getFactoidByKey_depth_one_witness :
    AliasesResolve storePlain ∧
    ∃ x, getFactoidByKey storePlain 2 "b" = .ret x ∧
      ∀ fuel, getFactoidByKey storePlain (fuel + 2) "b" = .ret x :=
  ⟨storePlain_aliasesResolve,
    getFactoidByKey_depth_one storePlain storePlain_aliasesResolve "b"⟩


/-! ## Invalidation of the render cache -/

/-- A returning admin command either reports `savestate` and leaves the render
cache invalid, or leaves both maps as they were. -/
theorem admin_saved_or_same (E : Env) (st : Globals) (fuel : Nat) (nick command p1 : String)
    (rest : List String) (r : AdminResult)
    (hret : tryHandleAdminFactoid E st fuel nick (command :: p1 :: rest) = .ret r) :
    (r.savestate = true ∧ r.state.valid = false) ∨
    (r.state.Factoids = st.Factoids ∧ r.state.Factoidaliases = st.Factoidaliases) := by
  unfold tryHandleAdminFactoid at hret
  simp only at hret
  split_ifs at hret
  · obtain rfl := Outcome.ret.inj hret
    exact Or.inr ⟨rfl, rfl⟩
  · obtain rfl := Outcome.ret.inj hret
    exact Or.inl ⟨rfl, rfl⟩
  · split at hret
    · obtain rfl := Outcome.ret.inj hret
      exact Or.inl ⟨rfl, rfl⟩
    · exact Outcome.noConfusion hret
    · exact Outcome.noConfusion hret
  · obtain rfl := Outcome.ret.inj hret
    exact Or.inr ⟨rfl, rfl⟩
  · obtain rfl := Outcome.ret.inj hret
    exact Or.inr ⟨rfl, rfl⟩
  · obtain rfl := Outcome.ret.inj hret
    exact Or.inr ⟨rfl, rfl⟩
  · split at hret
    · obtain rfl := Outcome.ret.inj hret
      exact Or.inl ⟨rfl, rfl⟩
    · obtain rfl := Outcome.ret.inj hret
      exact Or.inr ⟨rfl, rfl⟩
  · obtain rfl := Outcome.ret.inj hret
    exact Or.inr ⟨rfl, rfl⟩
  · split at hret
    · rename_i f k ok heq
      cases ok with
      | true =>
        obtain rfl := Outcome.ret.inj hret
        exact Or.inl ⟨rfl, rfl⟩
      | false =>
        obtain rfl := Outcome.ret.inj hret
        exact Or.inr ⟨rfl, rfl⟩
    · exact Outcome.noConfusion hret
    · exact Outcome.noConfusion hret
  · obtain rfl := Outcome.ret.inj hret
    exact Or.inl ⟨rfl, rfl⟩
  · obtain rfl := Outcome.ret.inj hret
    exact Or.inr ⟨rfl, rfl⟩
  · obtain rfl := Outcome.ret.inj hret
    exact Or.inr ⟨rfl, rfl⟩

/-- C15: an admin command of at least two parts does not panic, and whenever it
returns having changed the factoid map or the alias map, it returns
`savestate = true` and the render cache's `valid` flag is false. -/
theorem mutation_invalidates (E : Env) (st : Globals) (fuel : Nat) (nick command p1 : String)
    (rest : List String) :
    tryHandleAdminFactoid E st fuel nick (command :: p1 :: rest) ≠ .panic ∧
    ∀ r, tryHandleAdminFactoid E st fuel nick (command :: p1 :: rest) = .ret r →
      r.state.Factoids ≠ st.Factoids ∨ r.state.Factoidaliases ≠ st.Factoidaliases →
      r.savestate = true ∧ r.state.valid = false := by
  refine ⟨admin_ne_panic E st fuel nick command p1 rest, ?_⟩
  intro r hret hchg
  rcases admin_saved_or_same E st fuel nick command p1 rest r hret with h | ⟨hF, hA⟩
  · exact h
  · rcases hchg with h | h
    · exact absurd hF h
    · exact absurd hA h

/-- In `storePlain`, whose cache is valid, `delalias a` changes the alias map,
reports `savestate` and leaves the cache invalid. -/
theorem mutation_invalidates_witness :
    storePlain.valid = true ∧
    ∃ r, tryHandleAdminFactoid goEnv storePlain 0 "nick" ["delalias", "a"] = .ret r ∧
      (r.state.Factoids ≠ storePlain.Factoids ∨
        r.state.Factoidaliases ≠ storePlain.Factoidaliases) ∧
      r.savestate = true ∧ r.state.valid = false := by
  have hchg : (adminFinish
      { storePlain with Factoidaliases := storePlain.Factoidaliases.erase (goEnv.ToLower "a") }
      true [("nick", ["Deleted alias successfully"])]).state.Factoidaliases ≠
        storePlain.Factoidaliases := by
    intro h
    have h1 := congrArg (fun m => AList.lookup "a" m) h
    revert h1
    decide
  exact ⟨rfl, _, rfl, Or.inr hchg,
    (mutation_invalidates goEnv storePlain 0 "nick" "delalias" "a" []).2 _ rfl (Or.inr hchg)⟩

/-! ## The rate limiter -/

/-- A difference below the cooldown is not affected by the saturation. -/
theorem timeSub_lt_iff (t u : Int) : timeSub t u < 30 * Second ↔ t - u < 30 * Second := by
  have hs : (30 * Second : Int) = 30000000000 := by decide
  have hmax : maxDuration = 9223372036854775807 := by decide
  have hmin : minDuration = -9223372036854775808 := by decide
  unfold timeSub
  rw [hs, hmax, hmin]
  split_ifs <;> omega

/-- C11: with the clock readings as inputs: for a key never stamped before the
first call returns false; a second call whose `time.Since` reading is less than
30 seconds after the stamp of the first returns true; and a third call whose
`time.Since` reading is 30 seconds or more after the stamp of the second call
returns false, the second call having re-stamped the key with its own
`time.Now` reading. -/
theorem factoidUsedRecently_cooldown (used : UsedMap) (k : String)
    (s1 n1 s2 n2 s3 n3 : Int)
    (hnew : used.lookup k = none)
    (h2 : s2 - n1 < 30 * Second)
    (h3 : 30 * Second ≤ s3 - n2) :
    (factoidUsedRecently used s1 n1 k).1 = false ∧
    (factoidUsedRecently (factoidUsedRecently used s1 n1 k).2 s2 n2 k).1 = true ∧
    (factoidUsedRecently (factoidUsedRecently used s1 n1 k).2 s2 n2 k).2.lookup k = some n2 ∧
    (factoidUsedRecently
      (factoidUsedRecently (factoidUsedRecently used s1 n1 k).2 s2 n2 k).2 s3 n3 k).1 = false := by
  have e1 : factoidUsedRecently used s1 n1 k = (false, used.insert k n1) := by
    simp [factoidUsedRecently, hnew]
  have e2 : factoidUsedRecently (used.insert k n1) s2 n2 k =
      (true, (used.insert k n1).insert k n2) := by
    simp [factoidUsedRecently, (timeSub_lt_iff s2 n1).2 h2]
  have h3n : ¬ timeSub s3 n2 < 30 * Second := by
    rw [timeSub_lt_iff]
    omega
  have e3 : (factoidUsedRecently ((used.insert k n1).insert k n2) s3 n3 k).1 = false := by
    simp [factoidUsedRecently, h3n]
  rw [e1]
  simp only
  rw [e2]
  simp only
  exact ⟨trivial, trivial, AList.lookup_insert _, e3⟩

/-- A first call at second 100, a second one at second 110 and a third one at
second 140: false, true, false. -/
theorem factoidUsedRecently_cooldown_witness :
    (∅ : UsedMap).lookup "k" = none ∧
    (110 * Second - 100 * Second < 30 * Second) ∧
    (30 * Second ≤ 140 * Second - 110 * Second) ∧
    (factoidUsedRecently ∅ (100 * Second) (100 * Second) "k").1 = false ∧
    (factoidUsedRecently (factoidUsedRecently ∅ (100 * Second) (100 * Second) "k").2
      (110 * Second) (110 * Second) "k").1 = true ∧
    (factoidUsedRecently (factoidUsedRecently ∅ (100 * Second) (100 * Second) "k").2
      (110 * Second) (110 * Second) "k").2.lookup "k" = some (110 * Second) ∧
    (factoidUsedRecently
      (factoidUsedRecently (factoidUsedRecently ∅ (100 * Second) (100 * Second) "k").2
        (110 * Second) (110 * Second) "k").2 (140 * Second) (140 * Second) "k").1 = false :=
  ⟨by decide, by decide, by decide,
    factoidUsedRecently_cooldown ∅ "k" (100 * Second) (100 * Second) (110 * Second)
      (110 * Second) (140 * Second) (140 * Second) (by decide) (by decide) (by decide)⟩



/-! ## The trigger path -/

theorem indexSpace_ge (l : List Char) : -1 ≤ indexSpace l := by
  induction l with
  | nil => simp [indexSpace]
  | cons c cs ih =>
    unfold indexSpace
    split_ifs <;> omega

/-- The first space of `l ++ ' ' :: r`, when `l` has none, is at `l.length`. -/
theorem indexSpace_append (l r : List Char) (hl : ' ' ∉ l) :
    indexSpace (l ++ ' ' :: r) = l.length := by
  induction l with
  | nil => simp [indexSpace]
  | cons c cs ih =>
    have hc : c ≠ ' ' := fun h => hl (h ▸ List.mem_cons_self _ _)
    have hcs : ' ' ∉ cs := fun h => hl (List.mem_cons_of_mem _ h)
    have h := ih hcs
    have hnn : ¬ ((cs.length : Int) < 0) := by omega
    show indexSpace (c :: (cs ++ ' ' :: r)) = ((c :: cs).length : Int)
    unfold indexSpace
    rw [if_neg hc, h, if_neg hnn]
    simp

/-- A text without a space has no first space. -/
theorem indexSpace_none (l : List Char) (hl : ' ' ∉ l) : indexSpace l = -1 := by
  induction l with
  | nil => simp [indexSpace]
  | cons c cs ih =>
    have hc : c ≠ ' ' := fun h => hl (h ▸ List.mem_cons_self _ _)
    have hcs : ' ' ∉ cs := fun h => hl (List.mem_cons_of_mem _ h)
    simp [indexSpace, hc, ih hcs]

/-- What `tryHandleFactoid` does on `"!" + key + " " + rest` when the key has no
space, is valid, resolves and is not rate-limited: one reply, whose first
argument is `rest` cut at its first space if that space is not its first
character, and the whole of `rest` otherwise. -/
theorem tryHandleFactoid_postfix (E : Env) (st : Globals) (used : UsedMap)
    (sinceNow stampNow : Int) (fuel : Nat) (target : String) (key rest : List Char)
    (b k : String)
    (hkey : ' ' ∉ key)
    (hvalid : E.isalpha (E.ToLower (String.mk key)) = true)
    (hres : getFactoidByKey st fuel (E.ToLower (String.mk key)) = .ret (b, k, true))
    (hfresh : (factoidUsedRecently used sinceNow stampNow k).1 = false) :
    tryHandleFactoid E st used sinceNow stampNow fuel target
        (String.mk ('!' :: (key ++ ' ' :: rest))) =
      .ret ⟨true, (factoidUsedRecently used sinceNow stampNow k).2,
        [(target,
          [String.mk (if indexSpace rest > 0 then slice rest 0 (indexSpace rest).toNat else rest),
            ": ", b])]⟩ := by
  have hidx : indexSpace ('!' :: (key ++ ' ' :: rest)) = (key.length : Int) + 1 := by
    have h := indexSpace_append ('!' :: key) rest (by
      intro h
      rcases List.mem_cons.1 h with h | h
      · exact absurd h (by decide)
      · exact hkey h)
    simpa using h
  have hnn : ¬ ((key.length : Int) + 1 < 0) := by omega
  have hpos : ((key.length : Int) + 1).toNat = key.length + 1 := by omega
  have hslice : slice ('!' :: (key ++ ' ' :: rest)) 1 (key.length + 1) = key := by
    simp [slice]
  have hdrop : List.drop (key.length + 1 + 1) ('!' :: (key ++ ' ' :: rest)) = rest := by
    simp
  have hne : key.length + 1 ≠ ('!' :: (key ++ ' ' :: rest)).length := by
    simp
  unfold tryHandleFactoid
  simp only [hidx, if_neg hnn, hpos, hslice, hvalid, hres, hfresh, hdrop]
  simp [slice]

/-- C16, the failing input: on `"!k  a b"` (two spaces after the key) in
`storePlain`, where `k` is a factoid with body `y` and nothing is rate-limited,
the single reply starts with the whole postfix `" a b"`: the tokens after the
first are not dropped. -/
theorem tryHandleFactoid_leading_space :
    goEnv.isalpha (goEnv.ToLower "k") = true ∧
    getFactoidByKey storePlain 1 (goEnv.ToLower "k") = .ret ("y", "k", true) ∧
    (factoidUsedRecently ∅ 5 6 "k").1 = false ∧
    ∃ r, tryHandleFactoid goEnv storePlain ∅ 5 6 1 "#chan" "!k  a b" = .ret r ∧
      r.abort = true ∧
      r.privmsgs = [("#chan", [" a b", ": ", "y"])] ∧
      r.privmsgs ≠ [("#chan", ["a", ": ", "y"])] ∧
      r.privmsgs ≠ [("#chan", ["", ": ", "y"])] :=
  ⟨by decide, by decide, by decide, _, rfl, rfl, by decide, by decide, by decide⟩


/-! ## The records of the rendered page -/

theorem orderedInsert_congr {α : Type} (r s : α → α → Prop) [DecidableRel r] [DecidableRel s]
    (h : ∀ a b, r a b ↔ s a b) (x : α) :
    ∀ l : List α, l.orderedInsert r x = l.orderedInsert s x := by
  intro l
  induction l with
  | nil => rfl
  | cons b l ih =>
    simp only [List.orderedInsert]
    by_cases hr : r x b
    · rw [if_pos hr, if_pos ((h x b).1 hr)]
    · rw [if_neg hr, if_neg (fun hs => hr ((h x b).2 hs)), ih]

theorem insertionSort_congr {α : Type} (r s : α → α → Prop) [DecidableRel r] [DecidableRel s]
    (h : ∀ a b, r a b ↔ s a b) :
    ∀ l : List α, l.insertionSort r = l.insertionSort s := by
  intro l
  induction l with
  | nil => rfl
  | cons b l ih =>
    simp only [List.insertionSort]
    rw [ih, orderedInsert_congr r s h]

/-- The order used by `sortStrings` is the order of strings. -/
theorem sortStrings_eq (a : List String) : sortStrings a = a.insertionSort (· ≤ ·) :=
  insertionSort_congr _ _ (fun _ _ => String.le_iff_toList_le.symm) a

theorem sortStrings_perm (a : List String) : (sortStrings a).Perm a :=
  List.perm_insertionSort _ a

theorem sortStrings_sorted (a : List String) : (sortStrings a).Sorted (· ≤ ·) := by
  rw [sortStrings_eq]
  exact List.sorted_insertionSort _ a

theorem sortStrings_nil : sortStrings [] = [] := rfl

/-- The list kept under `name` after the first loop of `ensureData` has run
over the entries `l`, starting from the map `acc`. -/
theorem foldl_collect_lookup (name : String) :
    ∀ (l : List (Sigma fun _ : String => String))
      (acc : AList (fun _ : String => List String)),
      ((l.foldl (fun m e => m.insert e.2 ((m.lookup e.2).getD [] ++ [e.1])) acc).lookup
          name).getD [] =
        (acc.lookup name).getD [] ++ (l.filter (fun e => e.2 = name)).map (fun e => e.1) := by
  intro l
  induction l with
  | nil => intro acc; simp
  | cons e l ih =>
    intro acc
    rw [List.foldl_cons, ih]
    by_cases h : e.2 = name
    · subst h
      simp [AList.lookup_insert]
    · have h1 : name ≠ e.2 := fun h' => h h'.symm
      simp [AList.lookup_insert_ne h1, h]

theorem collectAliases_lookup (aliases : GoMap) (name : String) :
    ((collectAliases aliases).lookup name).getD [] =
      (aliases.entries.filter (fun e => e.2 = name)).map (fun e => e.1) := by
  unfold collectAliases
  rw [foldl_collect_lookup]
  simp

/-- The list kept under `name` after the second loop of `ensureData` has run
over the entries `l`, whose keys are distinct, starting from the map `acc`. -/
theorem foldl_sort_lookup (name : String) :
    ∀ (l : List (Sigma fun _ : String => List String)) (_ : l.NodupKeys)
      (acc : AList (fun _ : String => List String)),
      (l.foldl (fun acc e => acc.insert e.1 (sortStrings e.2)) acc).lookup name =
        match l.dlookup name with
        | some v => some (sortStrings v)
        | none => acc.lookup name := by
  intro l
  induction l with
  | nil => intro _ acc; simp
  | cons e l ih =>
    intro hnd acc
    obtain ⟨k, v⟩ := e
    have hnd2 := (List.nodupKeys_cons.1 hnd)
    rw [List.foldl_cons, ih hnd2.2]
    by_cases h : name = k
    · subst h
      have hnone : l.dlookup name = none := List.dlookup_eq_none.2 hnd2.1
      simp [hnone]
    · have h1 : k ≠ name := fun h' => h h'.symm
      rw [List.dlookup_cons_ne _ _ h]
      cases hl : l.dlookup name with
      | some w => rfl
      | none => simp [AList.lookup_insert_ne h]

theorem sortAliasLists_lookup (m : AList (fun _ : String => List String)) (name : String) :
    ((sortAliasLists m).lookup name).getD [] = sortStrings ((m.lookup name).getD []) := by
  unfold sortAliasLists
  rw [foldl_sort_lookup name m.entries m.nodupKeys m]
  have h : m.entries.dlookup name = m.lookup name := rfl
  rw [h]
  cases m.lookup name with
  | some v => rfl
  | none => rfl

/-- The aliases of the record built for `name`: the sorted keys of the alias
entries whose value is `name`. -/
theorem aliases_of_name (aliases : GoMap) (name : String) :
    ((sortAliasLists (collectAliases aliases)).lookup name).getD [] =
      sortStrings ((aliases.entries.filter (fun e => e.2 = name)).map (fun e => e.1)) := by
  rw [sortAliasLists_lookup, collectAliases_lookup]


/-- Two strictly ascending lists with the same members are equal. -/
theorem sorted_lt_ext (l1 l2 : List String) (h1 : l1.Sorted (· < ·)) (h2 : l2.Sorted (· < ·))
    (h : ∀ a, a ∈ l1 ↔ a ∈ l2) : l1 = l2 :=
  List.eq_of_perm_of_sorted ((List.perm_ext_iff_of_nodup h1.nodup h2.nodup).2 h) h1 h2

/-- The keys of the alias entries whose value is `name`: distinct, and `a` is
one of them exactly if the alias map sends `a` to `name`. -/
theorem aliasKeys_mem (aliases : GoMap) (name a : String) :
    a ∈ (aliases.entries.filter (fun e => e.2 = name)).map (fun e => e.1) ↔
      aliases.lookup a = some name := by
  rw [← exists_entry_iff]
  simp only [List.mem_map, List.mem_filter, decide_eq_true_eq]
  constructor
  · rintro ⟨e, ⟨he, h2⟩, h1⟩
    exact ⟨e, he, h1, h2⟩
  · rintro ⟨e, he, h1, h2⟩
    exact ⟨e, ⟨he, h2⟩, h1⟩

theorem aliasKeys_nodup (aliases : GoMap) (name : String) :
    ((aliases.entries.filter (fun e => e.2 = name)).map (fun e => e.1)).Nodup := by
  have hsub : ((aliases.entries.filter (fun e => e.2 = name)).map (fun e => e.1)).Sublist
      (aliases.entries.map (fun e => e.1)) :=
    (List.filter_sublist aliases.entries).map _
  exact List.Nodup.sublist hsub aliases.keys_nodup

/-- The aliases of the record built for `name` are strictly ascending and are
exactly the alias keys pointing to `name`. -/
theorem aliases_of_name_spec (aliases : GoMap) (name : String) :
    (((sortAliasLists (collectAliases aliases)).lookup name).getD []).Sorted (· < ·) ∧
    ∀ a, a ∈ ((sortAliasLists (collectAliases aliases)).lookup name).getD [] ↔
      aliases.lookup a = some name := by
  rw [aliases_of_name]
  constructor
  · exact (sortStrings_sorted _).lt_of_le
      ((sortStrings_perm _).nodup_iff.2 (aliasKeys_nodup aliases name))
  · intro a
    rw [(sortStrings_perm _).mem_iff]
    exact aliasKeys_mem aliases name a

/-- The aliases of a record depend on the alias map only through its lookups. -/
theorem aliases_of_name_congr (al1 al2 : GoMap) (h : ∀ a, al1.lookup a = al2.lookup a)
    (name : String) :
    ((sortAliasLists (collectAliases al1)).lookup name).getD [] =
      ((sortAliasLists (collectAliases al2)).lookup name).getD [] := by
  apply sorted_lt_ext _ _ (aliases_of_name_spec al1 name).1 (aliases_of_name_spec al2 name).1
  intro a
  rw [(aliases_of_name_spec al1 name).2, (aliases_of_name_spec al2 name).2, h]

/-- The records are the sorted image of the entries of the factoid map. -/
theorem ensureData_eq (st : Globals) :
    ensureData st =
      (st.Factoids.entries.map fun e =>
        ({ Name := e.1, Text := e.2,
           Aliases := ((sortAliasLists (collectAliases st.Factoidaliases)).lookup e.1).getD [] }
          : Factoid)).insertionSort (fun f g => f.Name ≤ g.Name) := by
  unfold ensureData
  exact insertionSort_congr _ _ (fun _ _ => String.le_iff_toList_le.symm) _

theorem ensureData_perm (st : Globals) :
    (ensureData st).Perm
      (st.Factoids.entries.map fun e =>
        ({ Name := e.1, Text := e.2,
           Aliases := ((sortAliasLists (collectAliases st.Factoidaliases)).lookup e.1).getD [] }
          : Factoid)) := by
  rw [ensureData_eq]
  exact List.perm_insertionSort _ _

theorem ensureData_names_perm (st : Globals) :
    ((ensureData st).map Factoid.Name).Perm st.Factoids.keys := by
  have h := (ensureData_perm st).map Factoid.Name
  simpa [AList.keys, List.keys, Function.comp] using h

theorem ensureData_names_sorted (st : Globals) :
    ((ensureData st).map Factoid.Name).Sorted (· < ·) := by
  have hle : ((ensureData st).map Factoid.Name).Sorted (· ≤ ·) := by
    rw [ensureData_eq]
    haveI : IsTotal Factoid (fun f g => f.Name ≤ g.Name) := ⟨fun a b => le_total _ _⟩
    haveI : IsTrans Factoid (fun f g => f.Name ≤ g.Name) := ⟨fun a b c h1 h2 => le_trans h1 h2⟩
    exact List.pairwise_map.2 (List.sorted_insertionSort (fun f g : Factoid => f.Name ≤ g.Name) _)
  exact hle.lt_of_le ((ensureData_names_perm st).nodup_iff.2 st.Factoids.keys_nodup)


/-- C12: the records built by `ensureData` are in strictly ascending order of
name; they are, name and body, exactly the entries of the factoid map, one
record per entry; the alias list of each record is strictly ascending and
holds exactly the alias keys whose value is the record's name; and two stores
whose maps hold the same entries in another iteration order give the same
records. -/
theorem ensureData_spec (st : Globals) :
    ((ensureData st).map Factoid.Name).Sorted (· < ·) ∧
    ((ensureData st).map fun f => (⟨f.Name, f.Text⟩ : Sigma fun _ : String => String)).Perm
      st.Factoids.entries ∧
    (∀ f ∈ ensureData st,
      f.Aliases.Sorted (· < ·) ∧
      ∀ a, a ∈ f.Aliases ↔ st.Factoidaliases.lookup a = some f.Name) ∧
    (∀ st1 : Globals, st1.Factoids.entries.Perm st.Factoids.entries →
      st1.Factoidaliases.entries.Perm st.Factoidaliases.entries →
      ensureData st1 = ensureData st) := by
  refine ⟨ensureData_names_sorted st, ?_, ?_, ?_⟩
  · have h := (ensureData_perm st).map
      fun f => (⟨f.Name, f.Text⟩ : Sigma fun _ : String => String)
    rw [List.map_map] at h
    have hid : st.Factoids.entries.map
        ((fun f : Factoid => (⟨f.Name, f.Text⟩ : Sigma fun _ : String => String)) ∘ fun e =>
          ({ Name := e.1, Text := e.2,
             Aliases :=
               ((sortAliasLists (collectAliases st.Factoidaliases)).lookup e.1).getD [] }
            : Factoid)) = st.Factoids.entries := by
      conv_rhs => rw [← List.map_id st.Factoids.entries]
      exact List.map_congr_left (fun e _ => by cases e; rfl)
    rw [hid] at h
    exact h
  · intro f hf
    have hf1 := (ensureData_perm st).mem_iff.1 hf
    obtain ⟨e, _, rfl⟩ := List.mem_map.1 hf1
    exact aliases_of_name_spec st.Factoidaliases e.1
  · intro st1 hF hA
    have hal : ∀ name,
        ((sortAliasLists (collectAliases st1.Factoidaliases)).lookup name).getD [] =
          ((sortAliasLists (collectAliases st.Factoidaliases)).lookup name).getD [] :=
      aliases_of_name_congr _ _ (fun a => AList.perm_lookup hA)
    have hperm : (ensureData st1).Perm (ensureData st) := by
      refine (ensureData_perm st1).trans (List.Perm.trans ?_ (ensureData_perm st).symm)
      simp only [hal]
      exact hF.map _
    haveI : IsAntisymm Factoid (fun f g => f.Name < g.Name) :=
      ⟨fun a b h1 h2 => absurd h1 (lt_asymm h2)⟩
    exact List.eq_of_perm_of_sorted hperm
      (List.pairwise_map.1 (ensureData_names_sorted st1))
      (List.pairwise_map.1 (ensureData_names_sorted st))

/-- The example of the specification: for the factoids `foo` and `baz` and the
alias `b` of `foo`, `baz` comes before `foo` and the aliases of `foo` are
`["b"]`. -/
theorem ensureData_example :
    ensureData storeExample =
      [{ Name := "baz", Text := "qux", Aliases := [] },
       { Name := "foo", Text := "bar", Aliases := ["b"] }] := by
  decide

/-- The records of `storeExample`, and of the same store iterated in the other
order. -/
theorem ensureData_spec_witness :
    storeExampleSwapped.Factoids.entries.Perm storeExample.Factoids.entries ∧
    storeExampleSwapped.Factoidaliases.entries.Perm storeExample.Factoidaliases.entries ∧
    storeExampleSwapped.Factoids.entries ≠ storeExample.Factoids.entries ∧
    ((ensureData storeExample).map Factoid.Name).Sorted (· < ·) ∧
    ((ensureData storeExample).map
      fun f => (⟨f.Name, f.Text⟩ : Sigma fun _ : String => String)).Perm
        storeExample.Factoids.entries ∧
    (∀ f ∈ ensureData storeExample,
      f.Aliases.Sorted (· < ·) ∧
      ∀ a, a ∈ f.Aliases ↔ storeExample.Factoidaliases.lookup a = some f.Name) ∧
    ensureData storeExampleSwapped = ensureData storeExample :=
  ⟨List.Perm.swap _ _ _, List.Perm.refl _, by decide,
    (ensureData_spec storeExample).1, (ensureData_spec storeExample).2.1,
    (ensureData_spec storeExample).2.2.1,
    (ensureData_spec storeExample).2.2.2 storeExampleSwapped (List.Perm.swap _ _ _)
      (List.Perm.refl _)⟩



/-! ## The render cache and `linkify` -/

/-- The method `ensureFreshness` never writes `tplmtime`. -/
theorem ensureFreshness_tplmtime (render : List Factoid → String) (parses : Bool)
    (st st1 : Globals) (c c1 : TplCache)
    (h : ensureFreshness render parses st c = some (st1, c1)) :
    c1.tplmtime = c.tplmtime := by
  unfold ensureFreshness at h
  split_ifs at h
  · simp only [Option.some.injEq, Prod.mk.injEq] at h
    rw [← h.2]
  · simp only [Option.some.injEq, Prod.mk.injEq] at h
    rw [← h.2]

/-- C14, the failing input: starting from the cache of a fresh process
(invalid, `tplmtime` the zero time) with a template that parses and was last
modified at `1700000000` seconds, `ensureFreshness` ends with the cache valid
but with `tplmtime` still the zero time, so the next `checkTemplateChanged`
that observes the same modification time marks the cache invalid. -/
theorem ensureFreshness_forgets_mtime (render : List Factoid → String) :
    storeExample.valid = false ∧
    ∃ st1 c1, ensureFreshness render true storeExample tplZero = some (st1, c1) ∧
      st1.valid = true ∧
      c1.data = ensureData storeExample ∧
      c1.tplmtime = 0 ∧
      c1.tplmtime ≠ 1700000000 * Second ∧
      (checkTemplateChanged (some (1700000000 * Second)) st1 c1).valid = false := by
  have hne : (0 : Int) ≠ 1700000000 * Second := by decide
  refine ⟨rfl, _, _, rfl, rfl, rfl, rfl, hne, ?_⟩
  simp [checkTemplateChanged, tplZero, hne.symm]

/-- The example of the specification: the URL is wrapped in an anchor, the text
around it is escaped and otherwise unchanged. -/
theorem linkify_example :
    (linkify "see http://example.com/x <now>").data =
      "see ".data ++ anchor "http://example.com/x".data ++ " &lt;now&gt;".data := by
  decide

set_option maxRecDepth 20000 in
/-- C13, the failing input: the body `http://a.b http://a.b` holds the same URL
twice.  `urlre` matches twice, and each of the two passes of the loop replaces
every occurrence of the URL, those inside the anchors of the first pass
included: each URL ends up as an anchor whose `href` and text are themselves
anchors, not wrapped exactly once. -/
theorem linkify_repeated_url :
    htmlEscape "http://a.b http://a.b".data = "http://a.b http://a.b".data ∧
    urlreFindAll "http://a.b http://a.b".data = ["http://a.b".data, "http://a.b".data] ∧
    (linkify "http://a.b http://a.b").data =
      anchor (anchor "http://a.b".data) ++ ' ' :: anchor (anchor "http://a.b".data) ∧
    (linkify "http://a.b http://a.b").data ≠
      anchor "http://a.b".data ++ ' ' :: anchor "http://a.b".data := by
  decide

end Obscommits
